import Mathlib

/-!
# A verification model of the `typepersist` CoreDB engine

This development embeds, in Lean, the core of `src/core-db.ts`:
the type-mapping table (`getKnexFieldType` / `translateType`), the
predicate compiler (`addTablePrefixToWhere` / `buildWhereClause`), the
schema migration engine (`schemaCreateOrUpdate`), the row operations
(`insert` / `update` / `upsert`) and the join resolution engine
(`validateForeignKeyConnection` / `query` / `fetchChildren`).

The storage backend (knex + SQLite) is an external collaborator of the
core; it is modelled as an explicit state (`SDB`) of tables, each with a
list of named columns, foreign keys, index names and rows, together with
a trace of the DDL statements the engine issues.  Values are modelled by
the JS-style dynamic `Value` type.
-/

namespace TypePersist

/-- A dynamic value, as stored in a row or carried in a predicate.
`obj` and `list` let result records nest child rows the way the join
engine's JS objects do. -/
inductive Value where
  | null
  | int (n : Int)
  | str (s : String)
  | bool (b : Bool)
  | list (vs : List Value)
  | obj (fields : List (String × Value))

/-- A row: a record mapping field names to values, in insertion order. -/
abbrev Row := List (String × Value)

/-- Field access, `undefined`/absent modelled as `none`. -/
def lookupField (r : Row) (k : String) : Option Value :=
  List.lookup k r

/-- Field access defaulting to SQL NULL for an absent field. -/
def getFieldD (r : Row) (k : String) : Value :=
  (lookupField r k).getD .null

/-- JS property assignment `r[k] = v`: overwrite in place if the key is
present, otherwise append. -/
def setField (r : Row) (k : String) (v : Value) : Row :=
  if r.any (fun p => p.1 == k) then
    r.map (fun p => if p.1 == k then (k, v) else p)
  else r ++ [(k, v)]

/-- JS truthiness of a value (`if (data.id)` style tests). -/
def truthy : Value → Bool
  | .null => false
  | .int n => n != 0
  | .str s => s != ""
  | .bool b => b
  | .list _ => true
  | .obj _ => true

/-- SQL `=` comparison as SQLite evaluates the backend's `where(col, v)`
calls: NULL compares equal to nothing, scalars compare by value, and
non-scalar values never compare equal.  Modelled from the spec: the
storage backend collaborator of §6. -/
def sqlEq : Value → Value → Bool
  | .null, _ => false
  | _, .null => false
  | .int a, .int b => a == b
  | .str a, .str b => a == b
  | .bool a, .bool b => a == b
  | _, _ => false

/-- Stringification used when a value is spliced into a LIKE pattern
(JS template literal).  Modelled from the spec: backend collaborator. -/
def valueToString : Value → String
  | .null => "null"
  | .int n => toString n
  | .str s => s
  | .bool b => toString b
  | .list _ => "[list]"
  | .obj _ => "[object]"

/-! ## Field and table definitions (`FieldDef`, `TableDefinition`) -/

/-- The abstract field-type vocabulary of `core-db.ts`.  TypeScript
erases the union at runtime, so a value outside the declared enum can
reach the engine; `Other s` models such a value. -/
inductive FieldType where
  | Text | Password | UUID | Integer | Currency | Float | Double
  | Decimal | Datetime | Time | Date | CreatedAt | UpdatedAt
  | Boolean | Binary | ID | Enum
  | ReferenceOneToOne | ReferenceManyToOne
  | ReferenceOneToMany | ReferenceManyToMany
  | Other (s : String)
  deriving DecidableEq, Repr

/-- The name of a field type as it appears in error messages. -/
def FieldType.nameStr : FieldType → String
  | .Text => "Text" | .Password => "Password" | .UUID => "UUID"
  | .Integer => "Integer" | .Currency => "Currency" | .Float => "Float"
  | .Double => "Double" | .Decimal => "Decimal" | .Datetime => "Datetime"
  | .Time => "Time" | .Date => "Date" | .CreatedAt => "CreatedAt"
  | .UpdatedAt => "UpdatedAt" | .Boolean => "Boolean" | .Binary => "Binary"
  | .ID => "ID" | .Enum => "Enum"
  | .ReferenceOneToOne => "ReferenceOneToOne"
  | .ReferenceManyToOne => "ReferenceManyToOne"
  | .ReferenceOneToMany => "ReferenceOneToMany"
  | .ReferenceManyToMany => "ReferenceManyToMany"
  | .Other s => s

/-- One column's abstract description (`FieldDef` in `core-db.ts`).
Fields the core engine never reads (`minimum`, `maximum`, `ordering`,
`system`, `referenceName`, `options`, `indexedFields`, `precision`) are
omitted; `required` is a JS-truthy optional boolean, modelled as `Bool`
defaulting to `false`. -/
structure FieldDef where
  name : String
  type : FieldType
  indexed : Option String := none
  required : Bool := false
  defaultValue : Option String := none
  indexName : Option String := none
  foreignTable : Option String := none
  deriving DecidableEq, Repr

/-- A table definition (`TableDefinition` in `core-db.ts`); the
`implementation` and `description` fields are never read by the core. -/
structure TableDefinition where
  name : String
  fields : List FieldDef
  deriving DecidableEq, Repr

/-- JS truthiness of an optional string (empty string is falsy). -/
def truthyStr : Option String → Bool
  | some s => s != ""
  | none => false

/-! ## The type mapping table (`getKnexFieldType`, `translateType`) -/

/-- `CoreDB.getKnexFieldType`: maps an abstract field type to the knex
column-type keyword; the two to-many reference kinds map to `""`
(handled through separate junction tables) and anything outside the
enum raises `Unsupported field type`. -/
def getKnexFieldType (fieldDef : FieldDef) : Except String String :=
  match fieldDef.type with
  | .Text | .Password => .ok "text"
  | .UUID => .ok "uuid"
  | .Integer | .ID => .ok "integer"
  | .Currency | .Decimal => .ok "decimal"
  | .Float => .ok "float"
  | .Double => .ok "double"
  | .Boolean => .ok "boolean"
  | .Binary => .ok "binary"
  | .Date => .ok "date"
  | .Time => .ok "time"
  | .Datetime | .CreatedAt | .UpdatedAt => .ok "datetime"
  | .Enum => .ok "text"
  | .ReferenceOneToOne | .ReferenceManyToOne => .ok "integer"
  | .ReferenceOneToMany | .ReferenceManyToMany => .ok ""
  | .Other s => .error ("Unsupported field type: " ++ s)

/-- `CoreDB.translateType`: dispatches on the knex column type to the
corresponding knex builder call; the resulting stored column type is the
keyword itself, and the default branch raises `Invalid column type`
(reached e.g. for the `""` of to-many references). -/
def translateType (f : FieldDef) : Except String String :=
  (getKnexFieldType f).bind (fun columnType =>
    if ["text", "uuid", "integer", "decimal", "float", "double",
        "boolean", "binary", "date", "datetime", "time"].contains columnType
    then .ok columnType
    else .error ("Invalid column type: " ++ columnType))

/-! ## Predicates (`Where`) and their compiler -/

/-- A comparison leaf of a `Where` tree (`WhereCmp` in `core-db.ts`).
The `leftType`/`rightType` annotations exist in the source type but are
never read by the compiler. -/
structure WhereCmp where
  left : String
  leftType : String := "Field"
  cmp : String
  right : Value
  rightType : String := "Value"

/-- The predicate language: comparisons plus `And`/`Or` combinators. -/
inductive Where where
  | cmp (c : WhereCmp)
  | and (children : List Where)
  | or (children : List Where)

mutual

/-- `CoreDB.addTablePrefixToWhere`: qualifies the `left` field name of
every comparison with the given table name. -/
def addTablePrefixToWhere (w : Where) (tableName : String) : Where :=
  match w with
  | .or ws => .or (addTablePrefixToWhereList ws tableName)
  | .and ws => .and (addTablePrefixToWhereList ws tableName)
  | .cmp c => .cmp { c with left := tableName ++ "." ++ c.left }

/-- Pointwise `addTablePrefixToWhere` over the children of a combinator. -/
def addTablePrefixToWhereList (ws : List Where) (tableName : String) : List Where :=
  match ws with
  | [] => []
  | w :: rest => addTablePrefixToWhere w tableName :: addTablePrefixToWhereList rest tableName

end

/-- The backend filter built by the predicate compiler: a tree of
builder calls (`where`, `whereIn`/`whereNotIn`, grouped `and`/`or`). -/
inductive FilterOp where
  | whereCmp (field op : String) (value : Value)
  | whereIn (negated : Bool) (field : String) (value : Value)
  | and (children : List FilterOp)
  | or (children : List FilterOp)

mutual

/-- `CoreDB.buildWhereClause`: compiles a `Where` tree into backend
filter calls.  Note the `in`/`nin` cases forward the right-hand value
unchecked (the TS source casts it with `right as any[]`). -/
def buildWhereClause (w : Where) : Except String FilterOp :=
  match w with
  | .or ws => (buildWhereClauseList ws).map .or
  | .and ws => (buildWhereClauseList ws).map .and
  | .cmp c =>
    match c.cmp with
    | "eq" => .ok (.whereCmp c.left "=" c.right)
    | "neq" => .ok (.whereCmp c.left "!=" c.right)
    | "ne" => .ok (.whereCmp c.left "!=" c.right)
    | "gt" => .ok (.whereCmp c.left ">" c.right)
    | "gte" => .ok (.whereCmp c.left ">=" c.right)
    | "lt" => .ok (.whereCmp c.left "<" c.right)
    | "lte" => .ok (.whereCmp c.left "<=" c.right)
    | "like" =>
        .ok (.whereCmp c.left "LIKE" (.str ("%" ++ valueToString c.right ++ "%")))
    | "nlike" =>
        .ok (.whereCmp c.left "NOT LIKE" (.str ("%" ++ valueToString c.right ++ "%")))
    | "in" => .ok (.whereIn false c.left c.right)
    | "nin" => .ok (.whereIn true c.left c.right)
    | "not" => .ok (.whereCmp c.left "!=" c.right)
    | other => .error ("Unsupported operator: " ++ other)

/-- Compiles each child of a combinator, propagating the first error. -/
def buildWhereClauseList (ws : List Where) : Except String (List FilterOp) :=
  match ws with
  | [] => .ok []
  | w :: rest => do
      let f ← buildWhereClause w
      let fs ← buildWhereClauseList rest
      pure (f :: fs)

end

mutual

/-- The comparison leaves of a `Where` tree, left to right. -/
def cmpLeaves (w : Where) : List WhereCmp :=
  match w with
  | .cmp c => [c]
  | .and ws => cmpLeavesList ws
  | .or ws => cmpLeavesList ws

/-- The comparison leaves of a list of `Where` trees. -/
def cmpLeavesList (ws : List Where) : List WhereCmp :=
  match ws with
  | [] => []
  | w :: rest => cmpLeaves w ++ cmpLeavesList rest

end

/-! ## The naming convention -/

/-- Character-level lowercasing (`toLowerCase`). -/
def strLower (s : String) : String :=
  String.mk (s.data.map Char.toLower)

/-- Splits a character list into maximal alphanumeric words. -/
def alnumWords : List Char → List Char → List (List Char)
  | [], acc => if acc.isEmpty then [] else [acc.reverse]
  | c :: rest, acc =>
      if c.isAlphanum then alnumWords rest (c :: acc)
      else if acc.isEmpty then alnumWords rest []
      else acc.reverse :: alnumWords rest []

/-- Capitalizes the first character of a word. -/
def capitalizeWord (w : List Char) : String :=
  match w with
  | [] => ""
  | c :: cs => String.mk (c.toUpper :: cs)

/-- Modelled from the spec: the lodash `_.camelCase` collaborator that
the foreign-key naming convention (§3, §9 of the spec) is built on.
Modelled for identifier-style names: words are split on
non-alphanumeric separators, lowercased, the first left as is and the
rest capitalized.  Every plain lowercase table name is a fixed point. -/
def camelCase (s : String) : String :=
  match alnumWords s.data [] with
  | [] => ""
  | w :: rest =>
      String.mk (w.map Char.toLower) ++
        String.join (rest.map (fun r => capitalizeWord (r.map Char.toLower)))

/-- The foreign-key naming convention: `camelCase(parent) + "Id"`. -/
def fkFieldName (parentTable : String) : String :=
  camelCase parentTable ++ "Id"

/-! ## Backend filter evaluation

The engine hands the compiled `FilterOp` tree to knex/SQLite; the
claims under proof never depend on the backend's comparison semantics,
but the model needs a definite one.  Modelled from the spec: the
storage backend collaborator of §6, SQL three-valued comparisons
collapsed to `false` on NULL. -/

/-- `table.field` qualifiers resolve to the bare column name on the
queried table.  Modelled from the spec: backend collaborator. -/
def resolveField (r : Row) (field : String) : Value :=
  match (field.splitOn ".").getLast? with
  | some last => getFieldD r last
  | none => getFieldD r field

/-- SQL `<` on scalars; NULL and mixed kinds compare false.
Modelled from the spec: backend collaborator. -/
def sqlLt : Value → Value → Bool
  | .int a, .int b => a < b
  | .str a, .str b => a < b
  | _, _ => false

/-- One comparison operator applied to a column value and an operand.
Modelled from the spec: backend collaborator. -/
def evalCmpOp (v : Value) (op : String) (w : Value) : Bool :=
  match op with
  | "=" => sqlEq v w
  | "!=" => match v, w with
      | .null, _ => false
      | _, .null => false
      | a, b => !sqlEq a b
  | ">" => sqlLt w v
  | ">=" => sqlLt w v || sqlEq v w
  | "<" => sqlLt v w
  | "<=" => sqlLt v w || sqlEq v w
  | "LIKE" => (valueToString v).containsSubstr
      (((valueToString w).replace "%" ""))
  | "NOT LIKE" => !((valueToString v).containsSubstr
      (((valueToString w).replace "%" "")))
  | _ => false

mutual

/-- Whether a row satisfies a compiled filter.  An empty `and`/`or`
group is the no-op (always-true) filter, as an empty knex `where`
grouping constrains nothing.  Modelled from the spec: backend
collaborator. -/
def evalFilter (r : Row) (f : FilterOp) : Bool :=
  match f with
  | .whereCmp field op value => evalCmpOp (resolveField r field) op value
  | .whereIn negated field value =>
      let items := match value with
        | .list vs => vs
        | v => [v]
      let hit := items.any (fun v => sqlEq (resolveField r field) v)
      if negated then !hit else hit
  | .and fs => evalFilterAll r fs
  | .or fs => if fs.isEmpty then true else evalFilterAny r fs

/-- Conjunction over a filter group. -/
def evalFilterAll (r : Row) (fs : List FilterOp) : Bool :=
  match fs with
  | [] => true
  | f :: rest => evalFilter r f && evalFilterAll r rest

/-- Disjunction over a filter group. -/
def evalFilterAny (r : Row) (fs : List FilterOp) : Bool :=
  match fs with
  | [] => false
  | f :: rest => evalFilter r f || evalFilterAny r rest

end

/-! ## Sorting and pagination -/

/-- A sort specification (`Sort` in `core-db.ts`; renamed, `Sort` being
reserved in Lean). -/
structure SortSpec where
  fieldId : String
  direction : String
  deriving DecidableEq, Repr

/-- Whether row `a` must come strictly before row `b` under the ordered
sort list (first differing key decides).  Modelled from the spec:
backend `ORDER BY` collaborator. -/
def rowBefore (sorts : List SortSpec) (a b : Row) : Bool :=
  match sorts with
  | [] => false
  | s :: rest =>
      let va := getFieldD a s.fieldId
      let vb := getFieldD b s.fieldId
      if sqlEq va vb then rowBefore rest a b
      else if s.direction == "desc" then sqlLt vb va
      else sqlLt va vb

/-- Stable insertion into a sorted list. -/
def insertSorted (lt : Row → Row → Bool) (x : Row) : List Row → List Row
  | [] => [x]
  | y :: ys => if lt x y then x :: y :: ys else y :: insertSorted lt x ys

/-- Stable sort of the root result set under the query's sort list.
Modelled from the spec: backend `ORDER BY` collaborator. -/
def applySorts (rows : List Row) (sorts : List SortSpec) : List Row :=
  match sorts with
  | [] => rows
  | _ => rows.foldr (insertSorted (rowBefore sorts)) []

/-- The pagination step of `CoreDB.query`: `limit` is applied only when
truthy, and the `(page - 1) * limit` offset is computed only inside the
limit branch (`page` alone has no effect).  A negative offset is
clamped and a negative limit disables the cap, as in SQLite. -/
def applyPage (rows : List Row) (limit page : Option Int) : List Row :=
  match limit with
  | none => rows
  | some l =>
      if l == 0 then rows
      else
        let off : Int := match page with
          | some p => if p == 0 then 0 else (p - 1) * l
          | none => 0
        let dropped := rows.drop off.toNat
        if l < 0 then dropped else dropped.take l.toNat

/-! ## The storage state

The backend (knex over SQLite) is modelled as an explicit database
state: named tables, each carrying its ordered column specifications
(the data `columnInfo` reports), its foreign keys (what
`PRAGMA foreign_key_list` reports), its index names (what the
`sqlite_master` query reports) and its rows.  Every backend call the
engine issues becomes a pure state transition, and DDL statements are
recorded in a trace. -/

/-- What `columnInfo` reports for one column: storage type, nullability
and default value (`null`/absent collapsed to `none`, as the engine
compares them with `?? null`). -/
structure ColumnSpec where
  ctype : String
  nullable : Bool
  defaultValue : Option String
  deriving DecidableEq, Repr

/-- One entry of `PRAGMA foreign_key_list`: column `fromCol` references
`refTable.toCol`. -/
structure FKSpec where
  fromCol : String
  refTable : String
  toCol : String
  deriving DecidableEq, Repr

/-- One stored table. -/
structure STable where
  columns : List (String × ColumnSpec)
  fks : List FKSpec
  indexes : List String
  rows : List Row

/-- The whole stored database. -/
structure SDB where
  tables : List (String × STable)

/-- One DDL statement issued by the schema engine. -/
inductive DDL where
  | createTable (name : String)
  | addColumn (table col : String)
  | copyRows (src dst : String)
  | dropTable (name : String)
  | renameTable (oldName newName : String)
  | addIndex (table idx : String)
  | dropColumn (table col : String)
  deriving DecidableEq, Repr

/-- Table lookup (`hasTable` / the handle `knexInstance(name)`). -/
def getTable (db : SDB) (name : String) : Option STable :=
  List.lookup name db.tables

/-- `knexInstance.schema.hasTable`. -/
def hasTable (db : SDB) (name : String) : Bool :=
  (getTable db name).isSome

/-- The `columnInfo` map of a table (empty for a missing table, as
SQLite's pragma reports nothing there). -/
def colsOf (db : SDB) (name : String) : List (String × ColumnSpec) :=
  ((getTable db name).map (fun t => t.columns)).getD []

/-- The column names of a table. -/
def columnNamesOf (db : SDB) (name : String) : List String :=
  (colsOf db name).map (fun p => p.1)

/-- Whether `columnInfo` has an entry for `col` (the engine's
`childColumns[expectedForeignKey]` test; key match is exact). -/
def hasCol (db : SDB) (table col : String) : Bool :=
  (columnNamesOf db table).contains col

/-- `CoreDB.getForeignKeys` (PRAGMA foreign_key_list). -/
def getForeignKeys (db : SDB) (name : String) : List FKSpec :=
  ((getTable db name).map (fun t => t.fks)).getD []

/-- The rows of a table (a `select *` with no filters). -/
def rowsOf (db : SDB) (name : String) : List Row :=
  ((getTable db name).map (fun t => t.rows)).getD []

/-- Appends a fresh table to the state. -/
def addTable (db : SDB) (name : String) (t : STable) : SDB :=
  ⟨db.tables ++ [(name, t)]⟩

/-- Applies `f` to the named table, if present. -/
def modifyTable (db : SDB) (name : String) (f : STable → STable) : SDB :=
  ⟨db.tables.map (fun p => if p.1 == name then (p.1, f p.2) else p)⟩

/-- Removes the named table (`dropTable`). -/
def removeTable (db : SDB) (name : String) : SDB :=
  ⟨db.tables.filter (fun p => p.1 != name)⟩

/-- `renameTable old new`: the table keeps its place and contents. -/
def renameTableState (db : SDB) (oldName newName : String) : SDB :=
  ⟨db.tables.map (fun p => if p.1 == oldName then (newName, p.2) else p)⟩

/-! ## The schema migration engine (`schemaCreateOrUpdate`) -/

/-- The synthesized auto-incrementing primary key
(`table.increments("id").primary()`). -/
def idColumnSpec : ColumnSpec :=
  { ctype := "integer", nullable := false, defaultValue := none }

/-- The column spec a field builder produces: the storage type, with
`notNullable`/`nullable` from `required` and `defaultTo` from
`defaultValue`. -/
def mkColSpec (f : FieldDef) (ctype : String) : ColumnSpec :=
  { ctype := ctype, nullable := !f.required, defaultValue := f.defaultValue }

/-- The inline foreign-key builder used for `ReferenceManyToOne` fields
with a truthy `foreignTable`:
`table.integer(name).unsigned().references("id").inTable(ft).onDelete("CASCADE")`. -/
def fieldFK (f : FieldDef) : Option FKSpec :=
  if f.type == .ReferenceManyToOne && truthyStr f.foreignTable then
    some { fromCol := f.name, refTable := f.foreignTable.getD "", toCol := "id" }
  else none

/-- Whether a field takes the inline foreign-key branch. -/
def isFKField (f : FieldDef) : Bool :=
  f.type == .ReferenceManyToOne && truthyStr f.foreignTable

/-- The column spec for one field on the create/add paths: the
foreign-key branch builds an integer column, every other field goes
through `translateType`. -/
def colSpecFor (f : FieldDef) : Except String ColumnSpec :=
  if isFKField f then .ok (mkColSpec f "integer")
  else (translateType f).map (mkColSpec f)

/-- The index name for a field:
`field.indexName || idx_<table>_<field>` (empty string falsy). -/
def idxNameFor (tableName : String) (f : FieldDef) : String :=
  match f.indexName with
  | some s => if s != "" then s else "idx_" ++ tableName ++ "_" ++ f.name
  | none => "idx_" ++ tableName ++ "_" ++ f.name

/-- The `createTable` callback of the create path, one field at a time:
skips the `""`-typed to-many references, otherwise emits the column,
the optional inline foreign key and the optional index, aborting on the
first type error. -/
def buildCreateCols (tableName : String) :
    List FieldDef → Except String (List (String × ColumnSpec) × List FKSpec × List String)
  | [] => .ok ([], [], [])
  | f :: rest =>
      (getKnexFieldType f).bind (fun knexType =>
        if knexType == "" then buildCreateCols tableName rest
        else
          (colSpecFor f).bind (fun spec =>
            (buildCreateCols tableName rest).map (fun (cols, fks, idxs) =>
              ((f.name, spec) :: cols,
               (match fieldFK f with
                | some fk => fk :: fks
                | none => fks),
               (if truthyStr f.indexed then idxNameFor tableName f :: idxs else idxs)))))

/-- Executes a `CREATE TABLE`: fails (with no state change) if the name
is taken or a column name repeats, as SQLite rejects such a statement.
Modelled from the spec: backend `createTable` collaborator of §6. -/
def createTableRaw (db : SDB) (name : String)
    (cols : List (String × ColumnSpec)) (fks : List FKSpec)
    (idxs : List String) : Except String Unit × SDB × List DDL :=
  if hasTable db name then
    (.error ("table " ++ name ++ " already exists"), db, [])
  else if (cols.map (fun p => p.1)).Nodup then
    (.ok (), addTable db name { columns := cols, fks := fks, indexes := idxs, rows := [] },
     [.createTable name])
  else
    (.error ("duplicate column name in table " ++ name), db, [])

/-- The create path of `schemaCreateOrUpdate` (table absent): an `id`
primary key plus one column per field. -/
def createPath (db : SDB) (td : TableDefinition) : Except String Unit × SDB × List DDL :=
  match buildCreateCols td.name td.fields with
  | .error e => (.error e, db, [])
  | .ok (cols, fks, idxs) =>
      createTableRaw db td.name (("id", idColumnSpec) :: cols) fks idxs

/-- The match test of the reconcile path: storage type (case folded),
nullability and default value all agree with the definition. -/
def columnMatches (col : ColumnSpec) (f : FieldDef) (knexType : String) : Bool :=
  (strLower col.ctype == strLower knexType)
    && (col.nullable == !f.required)
    && (col.defaultValue == f.defaultValue)

/-- The reconcile path's check that a `ReferenceManyToOne` column's
foreign key is already properly set up. -/
def hasFKFor (db : SDB) (tableName : String) (f : FieldDef) : Bool :=
  match f.foreignTable with
  | some ft => (getForeignKeys db tableName).any
      (fun fk => fk.fromCol == f.name && fk.refTable == ft && fk.toCol == "id")
  | none => false

/-- The shadow-table column set of the rebuild branch: the changed
field gets its new specification; every other field present in the
pre-loop `columnInfo` snapshot is re-created with the definition's
storage type but the snapshot's nullability and default.  Note only the
changed field's branch re-creates an inline foreign key. -/
def buildTempCols (snapshot : List (String × ColumnSpec)) (changed : FieldDef) :
    List FieldDef → Except String (List (String × ColumnSpec) × List FKSpec)
  | [] => .ok ([], [])
  | f :: rest =>
      if f.name == changed.name then
        (colSpecFor f).bind (fun spec =>
          (buildTempCols snapshot changed rest).map (fun (cols, fks) =>
            ((f.name, spec) :: cols,
             match fieldFK f with
             | some fk => fk :: fks
             | none => fks)))
      else
        match List.lookup f.name snapshot with
        | some existingCol =>
            (translateType f).bind (fun ctype =>
              (buildTempCols snapshot changed rest).map (fun (cols, fks) =>
                ((f.name, { ctype := ctype,
                            nullable := existingCol.nullable,
                            defaultValue := existingCol.defaultValue }) :: cols,
                 fks)))
        | none => buildTempCols snapshot changed rest

/-- The positional `INSERT INTO temp SELECT * FROM original` of the
rebuild branch: values are matched to the destination's columns by
position, and the statement fails when the column counts differ.
Modelled from the spec: backend raw-SQL collaborator of §6. -/
def copyRowsPositional (srcCols dstCols : List String) (rows : List Row) :
    Except String (List Row) :=
  if srcCols.length == dstCols.length then
    .ok (rows.map (fun r => dstCols.zip (srcCols.map (fun c => getFieldD r c))))
  else .error "positional INSERT SELECT column count mismatch"

/-- The SQLite rebuild branch of the reconcile path: create the shadow
table, bulk-copy all rows positionally, drop the original and rename
the shadow into place. -/
def rebuildTable (db : SDB) (tdName : String)
    (snapshot : List (String × ColumnSpec)) (allFields : List FieldDef)
    (changed : FieldDef) : Except String Unit × SDB × List DDL :=
  let tempName := tdName ++ "_temp"
  match buildTempCols snapshot changed allFields with
  | .error e => (.error e, db, [])
  | .ok (cols, fks) =>
      match createTableRaw db tempName (("id", idColumnSpec) :: cols) fks [] with
      | (.error e, db1, t1) => (.error e, db1, t1)
      | (.ok _, db1, t1) =>
          match copyRowsPositional (columnNamesOf db1 tdName)
              (columnNamesOf db1 tempName) (rowsOf db1 tdName) with
          | .error e => (.error e, db1, t1)
          | .ok copied =>
              let db2 := modifyTable db1 tempName (fun t => { t with rows := copied })
              let db3 := removeTable db2 tdName
              let db4 := renameTableState db3 tempName tdName
              (.ok (), db4, t1 ++ [.copyRows tdName tempName, .dropTable tdName,
                                   .renameTable tempName tdName])

/-- The `ALTER TABLE ... ADD COLUMN` step of the reconcile path
(lines "Add column with correct specifications"), followed by the index
step guarded by the pre-loop index-name snapshot.  Adding a column that
already exists fails with SQLite's duplicate-column error. -/
def addColumnAndIndex (db : SDB) (tdName : String) (idxSnapshot : List String)
    (f : FieldDef) : Except String Unit × SDB × List DDL :=
  if hasCol db tdName f.name then
    (.error ("duplicate column name: " ++ f.name), db, [])
  else
    match colSpecFor f with
    | .error e => (.error e, db, [])
    | .ok spec =>
        let db1 := modifyTable db tdName (fun t =>
          { t with columns := t.columns ++ [(f.name, spec)],
                   fks := t.fks ++ (match fieldFK f with
                                    | some fk => [fk]
                                    | none => []) })
        let tr1 : List DDL := [.addColumn tdName f.name]
        if truthyStr f.indexed then
          let idxName := idxNameFor tdName f
          if idxSnapshot.contains idxName then (.ok (), db1, tr1)
          else
            (.ok (), modifyTable db1 tdName (fun t =>
               { t with indexes := t.indexes ++ [idxName] }),
             tr1 ++ [.addIndex tdName idxName])
        else (.ok (), db1, tr1)

/-- One field of the reconcile loop: skip when the existing column
matches (including the foreign-key check for `ReferenceManyToOne`),
otherwise rebuild the table and fall through to the add-column step;
a field with no existing column goes straight to the add-column step. -/
def processField (db : SDB) (tdName : String)
    (snapshot : List (String × ColumnSpec)) (idxSnapshot : List String)
    (allFields : List FieldDef) (f : FieldDef) (knexType : String) :
    Except String Unit × SDB × List DDL :=
  match List.lookup f.name snapshot with
  | some existingCol =>
      if columnMatches existingCol f knexType
          && !(isFKField f && !hasFKFor db tdName f) then
        (.ok (), db, [])
      else
        match rebuildTable db tdName snapshot allFields f with
        | (.error e, db1, t1) => (.error e, db1, t1)
        | (.ok _, db1, t1) =>
            match addColumnAndIndex db1 tdName idxSnapshot f with
            | (r, db2, t2) => (r, db2, t1 ++ t2)
  | none => addColumnAndIndex db tdName idxSnapshot f

/-- The reconcile loop over the definition's fields, threading the
state and accumulating the DDL trace; `snapshot` and `idxSnapshot` are
the `columnInfo` and index-name reads taken once before the loop. -/
def reconcileFields (tdName : String) (snapshot : List (String × ColumnSpec))
    (idxSnapshot : List String) (allFields : List FieldDef) (db : SDB) :
    List FieldDef → Except String Unit × SDB × List DDL
  | [] => (.ok (), db, [])
  | f :: rest =>
      match getKnexFieldType f with
      | .error e => (.error e, db, [])
      | .ok knexType =>
          if knexType == "" then
            reconcileFields tdName snapshot idxSnapshot allFields db rest
          else
            match processField db tdName snapshot idxSnapshot allFields f knexType with
            | (.error e, db1, t1) => (.error e, db1, t1)
            | (.ok _, db1, t1) =>
                match reconcileFields tdName snapshot idxSnapshot allFields db1 rest with
                | (r, db2, t2) => (r, db2, t1 ++ t2)

/-- `CoreDB.schemaCreateOrUpdate`: create the table if absent,
otherwise reconcile the existing columns with the definition. -/
def schemaCreateOrUpdate (db : SDB) (td : TableDefinition) :
    Except String Unit × SDB × List DDL :=
  match getTable db td.name with
  | none => createPath db td
  | some t => reconcileFields td.name t.columns t.indexes td.fields db td.fields

/-! ## Row operations (`insert`, `update`, `upsert`) -/

/-- JS `queryBuilder(t).update(data)` row effect: every column carried
by `data` is written into the row. -/
def mergeRow (r : Row) (data : Row) : Row :=
  data.foldl (fun acc p => setField acc p.1 p.2) r

/-- `CoreDB.update`: `where("id", id).update(data)` — rewrites exactly
the rows whose `id` equals the given value. -/
def updateWhereId (db : SDB) (tableName : String) (idv : Value) (data : Row) : SDB :=
  modifyTable db tableName (fun t =>
    { t with rows := t.rows.map (fun r =>
        if sqlEq (getFieldD r "id") idv then mergeRow r data else r) })

/-- The next auto-increment id of a table.  Modelled from the spec:
backend `lastInsertId` collaborator of §6 (SQLite assigns max rowid
plus one). -/
def nextId (t : STable) : Int :=
  (t.rows.foldl (fun acc r =>
     match getFieldD r "id" with
     | .int n => max acc n
     | _ => acc) 0) + 1

/-- `knex(t).insert(data)` returning the assigned row id: an explicit
non-null `id` in the record is kept, otherwise the auto-increment id is
assigned.  Modelled from the spec: backend collaborator of §6. -/
def insertRow (db : SDB) (tableName : String) (data : Row) : SDB × Value :=
  match getTable db tableName with
  | none => (db, .null)
  | some t =>
      match lookupField data "id" with
      | some (.int n) =>
          (modifyTable db tableName (fun tb => { tb with rows := tb.rows ++ [data] }),
           .int n)
      | _ =>
          let newId := nextId t
          (modifyTable db tableName (fun tb =>
             { tb with rows := tb.rows ++ [setField data "id" (.int newId)] }),
           .int newId)

/-- `CoreDB.upsert`: a truthy `data.id` routes to an update keyed on
that id (returning it); otherwise the record is inserted. -/
def upsert (db : SDB) (tableName : String) (data : Row) : SDB × Value :=
  let idv := getFieldD data "id"
  if truthy idv then
    (updateWhereId db tableName idv data, idv)
  else
    insertRow db tableName data

/-! ## The join resolution engine (`query`, `fetchChildren`) -/

/-- A per-table entry of a query chain (`TableQuery` in `core-db.ts`). -/
structure TableQuery where
  table : String
  query : Option Where := none

/-- A join query (`Query` in `core-db.ts`); the `field` and
`groupFields` members exist in the source type but are never read by
`CoreDB.query`. -/
structure Query where
  table : List TableQuery
  query : Option Where := none
  sort : Option (List SortSpec) := none
  page : Option Int := none
  limit : Option Int := none

/-- The error message of a missing foreign-key connection. -/
def missingFKMsg (parentTable childTable : String) : String :=
  "No foreign key connection found: Table '" ++ childTable ++
    "' must have a foreign key '" ++ fkFieldName parentTable ++
    "' referencing '" ++ parentTable ++ "'"

/-- The loop body of `validateForeignKeyConnection`, walking adjacent
pairs of the chain. -/
def validateFKAux (db : SDB) (parentTable : String) :
    List TableQuery → Except String Unit
  | [] => .ok ()
  | tq :: rest =>
      if hasCol db tq.table (fkFieldName parentTable) then
        validateFKAux db tq.table rest
      else .error (missingFKMsg parentTable tq.table)

/-- `CoreDB.validateForeignKeyConnection`: for every adjacent pair of
the chain, the later table must carry the conventionally named
foreign-key column of the earlier one. -/
def validateForeignKeyConnection (db : SDB) (tables : List TableQuery) :
    Except String Unit :=
  match tables with
  | [] => .ok ()
  | tq :: rest => validateFKAux db tq.table rest

/-- Applies one optional per-level filter: the `Where` tree is first
qualified with the level's table name, then compiled and applied. -/
def applyOptFilter (rows : List Row) (w : Option Where) (tableName : String) :
    Except String (List Row) :=
  match w with
  | none => .ok rows
  | some w0 =>
      (buildWhereClause (addTablePrefixToWhere w0 tableName)).map
        (fun f => rows.filter (fun r => evalFilter r f))

/-- The child rows the engine selects for one parent at one level:
`where(camelCase(prev) + "Id", parent.id)`. -/
def childRowsFor (db : SDB) (childTable prevTable : String) (parent : Row) :
    List Row :=
  (rowsOf db childTable).filter
    (fun r => sqlEq (getFieldD r (fkFieldName prevTable)) (getFieldD parent "id"))

/-- `CoreDB.fetchChildren`, over the whole parent set: at each level of
the remaining chain, each parent row is extended (under the child
table's name) with the array of its recursively assembled children;
the recursion stops when the chain is exhausted. -/
def fetchForest (db : SDB) (prevTable : String) :
    List TableQuery → List Row → Except String (List Row)
  | [], parents => .ok parents
  | tq :: rest, parents =>
      parents.mapM (fun parent =>
        (applyOptFilter (childRowsFor db tq.table prevTable parent) tq.query tq.table).bind
          (fun filtered =>
            (fetchForest db tq.table rest filtered).map (fun nested =>
              setField parent tq.table (.list (nested.map .obj)))))

/-- `CoreDB.query`: reject empty chains, validate the foreign-key
connections, run the root select (chain filter and global filter, then
sort, then limit/offset), and fetch the nested children of every root
row. -/
def coreQuery (db : SDB) (q : Query) : Except String (List Row) :=
  match q.table with
  | [] => .error "At least one table must be specified in the query"
  | t0 :: rest =>
      match validateForeignKeyConnection db q.table with
      | .error e => .error e
      | .ok _ =>
          (applyOptFilter (rowsOf db t0.table) t0.query t0.table).bind (fun rows1 =>
            (applyOptFilter rows1 q.query t0.table).bind (fun rows2 =>
              let rows3 := applySorts rows2 (q.sort.getD [])
              let rows4 := applyPage rows3 q.limit q.page
              fetchForest db t0.table rest rows4))

/-! ## Association-list lemmas -/

theorem lookup_append_some {β : Type _} {k : String} {v : β}
    {l₁ l₂ : List (String × β)} (h : List.lookup k l₁ = some v) :
    List.lookup k (l₁ ++ l₂) = some v := by
  induction l₁ with
  | nil => simp at h
  | cons p l ih =>
      obtain ⟨a, b⟩ := p
      cases hk : (k == a) with
      | true =>
          simp only [List.cons_append, List.lookup_cons, hk] at h ⊢
          exact h
      | false =>
          simp only [List.cons_append, List.lookup_cons, hk] at h ⊢
          exact ih h

theorem lookup_append_none {β : Type _} {k : String}
    {l₁ : List (String × β)} (l₂ : List (String × β))
    (h : List.lookup k l₁ = none) :
    List.lookup k (l₁ ++ l₂) = List.lookup k l₂ := by
  induction l₁ with
  | nil => simp
  | cons p l ih =>
      obtain ⟨a, b⟩ := p
      cases hk : (k == a) with
      | true => simp [List.lookup_cons, hk] at h
      | false =>
          simp only [List.cons_append, List.lookup_cons, hk] at h ⊢
          exact ih h

theorem lookup_of_mem_nodup {β : Type _} {k : String} {v : β}
    {l : List (String × β)} (hmem : (k, v) ∈ l)
    (hnd : (l.map Prod.fst).Nodup) : List.lookup k l = some v := by
  induction l with
  | nil => simp at hmem
  | cons p l ih =>
      obtain ⟨a, b⟩ := p
      simp only [List.map_cons, List.nodup_cons] at hnd
      rcases List.mem_cons.mp hmem with h | h
      · obtain ⟨hk, hv⟩ := Prod.mk.injEq .. ▸ h
        subst hk; subst hv
        simp [List.lookup_cons]
      · have hk : k ≠ a := by
          intro hkp
          subst hkp
          exact hnd.1 (List.mem_map_of_mem Prod.fst h)
      
        have hkb : (k == a) = false := beq_eq_false_iff_ne.mpr hk
        simp only [List.lookup_cons, hkb]
        exact ih h hnd.2

theorem lookup_eq_none_of_not_contains {β : Type _} {k : String}
    {l : List (String × β)} (h : (l.map Prod.fst).contains k = false) :
    List.lookup k l = none := by
  induction l with
  | nil => rfl
  | cons p l ih =>
      obtain ⟨a, b⟩ := p
      simp only [List.map_cons, List.contains_cons, Bool.or_eq_false_iff] at h
      simp only [List.lookup_cons, h.1]
      exact ih h.2

theorem lookup_filter_ne {β : Type _} {k n : String} (hkn : k ≠ n)
    (l : List (String × β)) :
    List.lookup k (l.filter (fun p => p.1 != n)) = List.lookup k l := by
  induction l with
  | nil => rfl
  | cons p l ih =>
      obtain ⟨a, b⟩ := p
      by_cases hp : a = n
      · subst hp
        have h1 : ((a, b).1 != a) = false := by simp
        rw [List.filter_cons, h1]
        simp only [Bool.false_eq_true, if_false]
        rw [ih]
        have : (k == a) = false := beq_eq_false_iff_ne.mpr hkn
        simp [List.lookup_cons, this]
      · have h1 : ((a, b).1 != n) = true := by simp [hp]
        rw [List.filter_cons, h1]
        simp only [if_true]
        cases hk : (k == a) with
        | true => simp [List.lookup_cons, hk]
        | false =>
            simp only [List.lookup_cons, hk]
            exact ih

theorem lookup_filter_self {β : Type _} (n : String) (l : List (String × β)) :
    List.lookup n (l.filter (fun p => p.1 != n)) = none := by
  induction l with
  | nil => rfl
  | cons p l ih =>
      obtain ⟨a, b⟩ := p
      by_cases hp : a = n
      · subst hp
        have h1 : ((a, b).1 != a) = false := by simp
        rw [List.filter_cons, h1]
        simpa using ih
      · have h1 : ((a, b).1 != n) = true := by simp [hp]
        rw [List.filter_cons, h1]
        simp only [if_true]
        have : (n == a) = false := beq_eq_false_iff_ne.mpr (Ne.symm hp)
        simp only [List.lookup_cons, this]
        exact ih

theorem lookup_rename {β : Type _} {nw old : String}
    {l : List (String × β)} (h : List.lookup nw l = none) :
    List.lookup nw (l.map (fun p => if p.1 == old then (nw, p.2) else p))
      = List.lookup old l := by
  induction l with
  | nil => rfl
  | cons p l ih =>
      obtain ⟨a, b⟩ := p
      cases hp : (a == old) with
      | true =>
          have hpe : a = old := eq_of_beq hp
          subst hpe
          rw [List.map_cons]
          simp only [hp, if_true]
          have hnw : (nw == a) = false := by
            cases hnww : (nw == a) with
            | false => rfl
            | true => simp [List.lookup_cons, hnww] at h
          simp [List.lookup_cons]
      | false =>
          rw [List.map_cons]
          simp only [hp, Bool.false_eq_true, if_false]
          have hnw : (nw == a) = false := by
            cases hnww : (nw == a) with
            | false => rfl
            | true => simp [List.lookup_cons, hnww] at h
          have hoa : (old == a) = false := by
            cases hh : (old == a) with
            | false => rfl
            | true =>
                have heq := eq_of_beq hh
                subst heq
                simp at hp
          simp only [List.lookup_cons, hnw, hoa]
          apply ih
          simpa [List.lookup_cons, hnw] using h

theorem lookup_modify_self {β : Type _} (nm : String) (g : β → β)
    (l : List (String × β)) :
    List.lookup nm (l.map (fun p => if p.1 == nm then (p.1, g p.2) else p))
      = (List.lookup nm l).map g := by
  induction l with
  | nil => rfl
  | cons p l ih =>
      obtain ⟨a, b⟩ := p
      cases hp : (a == nm) with
      | true =>
          have hpe : a = nm := eq_of_beq hp
          subst hpe
          rw [List.map_cons]
          simp [List.lookup_cons, hp]
      | false =>
          rw [List.map_cons]
          simp only [hp, Bool.false_eq_true, if_false]
          have : (nm == a) = false := by
            cases hh : (nm == a) with
            | false => rfl
            | true =>
                have := eq_of_beq hh
                subst this
                simp at hp
          simp only [List.lookup_cons, this]
          exact ih

theorem lookup_modify_other {β : Type _} {k : String} (nm : String)
    (hk : k ≠ nm) (g : β → β) (l : List (String × β)) :
    List.lookup k (l.map (fun p => if p.1 == nm then (p.1, g p.2) else p))
      = List.lookup k l := by
  induction l with
  | nil => rfl
  | cons p l ih =>
      obtain ⟨a, b⟩ := p
      cases hp : (a == nm) with
      | true =>
          have hpe : a = nm := eq_of_beq hp
          subst hpe
          rw [List.map_cons]
          simp only [hp, if_true]
          have hka : (k == a) = false := beq_eq_false_iff_ne.mpr hk
          simp only [List.lookup_cons, hka]
          exact ih
      | false =>
          rw [List.map_cons]
          simp only [hp, Bool.false_eq_true, if_false]
          cases hkp : (k == a) with
          | true => simp [List.lookup_cons, hkp]
          | false =>
              simp only [List.lookup_cons, hkp]
              exact ih

/-! ## Claim theorems: the type mapping table -/

/-- Counterexample to C8 as stated: `ReferenceOneToMany` is a Reference
type, yet `getKnexFieldType` maps it to the empty marker `""`, not to
the integer storage type. -/
theorem getKnexFieldType_oneToMany_not_integer :
    getKnexFieldType { name := "books", type := .ReferenceOneToMany } = .ok ""
    ∧ getKnexFieldType { name := "books", type := .ReferenceOneToMany }
        ≠ .ok "integer" := by
  refine ⟨rfl, ?_⟩
  intro h
  simp [getKnexFieldType] at h

/-- C8 (amended): `getKnexFieldType` is pure and total over the
declared field-type enum, errors exactly for values outside the enum,
maps the to-one reference types (`ReferenceOneToOne`,
`ReferenceManyToOne`) to the integer storage type, `Enum` to the text
storage type, and the to-many reference types to the empty marker that
the schema engine skips. -/
theorem getKnexFieldType_total_mapping :
    ∀ fd : FieldDef,
      ((getKnexFieldType fd).isOk = false ↔ ∃ s, fd.type = .Other s)
      ∧ ((fd.type = .ReferenceOneToOne ∨ fd.type = .ReferenceManyToOne) →
          getKnexFieldType fd = .ok "integer")
      ∧ (fd.type = .Enum → getKnexFieldType fd = .ok "text")
      ∧ ((fd.type = .ReferenceOneToMany ∨ fd.type = .ReferenceManyToMany) →
          getKnexFieldType fd = .ok "") := by
  intro fd
  cases h : fd.type <;> simp [getKnexFieldType, h, Except.isOk, Except.toBool]

/-- Witness for `getKnexFieldType_total_mapping` at `ReferenceManyToOne`. -/
theorem getKnexFieldType_total_mapping_witness :
    getKnexFieldType { name := "author", type := .ReferenceManyToOne,
                       foreignTable := some "authors" } = .ok "integer" :=
  (getKnexFieldType_total_mapping
    { name := "author", type := .ReferenceManyToOne,
      foreignTable := some "authors" }).2.1 (Or.inr rfl)

/-! ## Claim theorems: the predicate compiler -/

mutual

theorem cmpLeaves_addTablePrefix (w : Where) (tn : String) :
    cmpLeaves (addTablePrefixToWhere w tn)
      = (cmpLeaves w).map (fun c => { c with left := tn ++ "." ++ c.left }) :=
  match w with
  | .cmp _ => rfl
  | .and ws => by
      simp only [addTablePrefixToWhere, cmpLeaves]
      exact cmpLeavesList_addTablePrefix ws tn
  | .or ws => by
      simp only [addTablePrefixToWhere, cmpLeaves]
      exact cmpLeavesList_addTablePrefix ws tn

theorem cmpLeavesList_addTablePrefix (ws : List Where) (tn : String) :
    cmpLeavesList (addTablePrefixToWhereList ws tn)
      = (cmpLeavesList ws).map (fun c => { c with left := tn ++ "." ++ c.left }) :=
  match ws with
  | [] => rfl
  | w :: rest => by
      simp only [addTablePrefixToWhereList, cmpLeavesList, List.map_append]
      rw [cmpLeaves_addTablePrefix w tn, cmpLeavesList_addTablePrefix rest tn]

end

/-- Counterexample to C5 as stated: a comparison whose field name
already contains a qualifier is *not* left unchanged — the hint is
prepended anyway, yielding a doubly-qualified name. -/
theorem addTablePrefix_qualified_cex :
    addTablePrefixToWhere
        (.cmp { left := "books.genre", cmp := "eq", right := .str "horror" }) "books"
      = .cmp { left := "books.books.genre", cmp := "eq", right := .str "horror" }
    ∧ addTablePrefixToWhere
        (.cmp { left := "books.genre", cmp := "eq", right := .str "horror" }) "books"
      ≠ .cmp { left := "books.genre", cmp := "eq", right := .str "horror" } := by
  refine ⟨rfl, ?_⟩
  intro h
  simp [addTablePrefixToWhere] at h

/-- C5 (amended): `addTablePrefixToWhere` prepends the table hint to
the field name of *every* comparison leaf, unconditionally — including
comparisons whose field name already contains a qualifier. -/
theorem addTablePrefix_prefixes_every_comparison :
    ∀ (w : Where) (tableName : String),
      cmpLeaves (addTablePrefixToWhere w tableName)
        = (cmpLeaves w).map
            (fun c => { c with left := tableName ++ "." ++ c.left }) :=
  cmpLeaves_addTablePrefix

/-- Counterexample to C6 as stated: an `in` comparison whose right-hand
value is the scalar `3` (not a list) compiles successfully — no
`InvalidOperandError` (nor any error) is raised. -/
theorem buildWhere_in_scalar_ok :
    buildWhereClause (.cmp { left := "age", cmp := "in", right := .int 3 })
      = .ok (.whereIn false "age" (.int 3))
    ∧ ∀ e, buildWhereClause (.cmp { left := "age", cmp := "in", right := .int 3 })
        ≠ .error e := by
  refine ⟨rfl, ?_⟩
  intro e h
  simp [buildWhereClause] at h

/-- C6 (amended): the compiler performs no operand validation for the
`in`/`nin` operators — compilation succeeds for every right-hand value,
list or not, forwarding it unchecked to the backend's
`whereIn`/`whereNotIn`. -/
theorem buildWhere_in_nin_unchecked :
    ∀ c : WhereCmp,
      (c.cmp = "in" →
        buildWhereClause (.cmp c) = .ok (.whereIn false c.left c.right))
      ∧ (c.cmp = "nin" →
        buildWhereClause (.cmp c) = .ok (.whereIn true c.left c.right)) := by
  intro c
  obtain ⟨l, lt, cm, r, rt⟩ := c
  constructor <;> intro h <;> (subst h; rfl)

/-- Witness for `buildWhere_in_nin_unchecked` at a concrete `nin`
comparison. -/
theorem buildWhere_in_nin_unchecked_witness :
    buildWhereClause (.cmp { left := "tags", cmp := "nin", right := .str "x" })
      = .ok (.whereIn true "tags" (.str "x")) :=
  (buildWhere_in_nin_unchecked
    { left := "tags", cmp := "nin", right := .str "x" }).2 rfl

/-! ## Claim theorems: upsert -/

/-- A one-table database with no rows, for exercising `upsert`. -/
def upsertDemoDB : SDB :=
  ⟨[("users",
     { columns := [("id", idColumnSpec),
                   ("name", { ctype := "text", nullable := true, defaultValue := none })],
       fks := [], indexes := [], rows := [] })]⟩

/-- Counterexample to C9 as stated: the record `{id: 0, name: "a"}`
contains an `id` field, yet `upsert` falls into the insert branch (the
source tests `if (data.id)`, a truthiness check, and `0` is falsy): the
previously empty table gains a row, so an insert *was* performed and
the table was not left unchanged. -/
theorem upsert_id_zero_inserts :
    rowsOf upsertDemoDB "users" = []
    ∧ rowsOf (upsert upsertDemoDB "users" [("id", .int 0), ("name", .str "a")]).1 "users"
        = [[("id", .int 0), ("name", .str "a")]] :=
  ⟨rfl, rfl⟩

/-- C9 (amended): for every record whose `id` field holds a *truthy*
value, `upsert` issues only an update keyed on that id and returns that
id, even when no row with that id exists; in that case the table is
left unchanged and no insert is performed. -/
theorem upsert_truthy_id_is_update :
    ∀ (db : SDB) (tableName : String) (data : Row) (v : Value),
      lookupField data "id" = some v → truthy v = true →
      upsert db tableName data = (updateWhereId db tableName v data, v)
      ∧ ((∀ p ∈ db.tables, p.1 = tableName →
            ∀ r ∈ p.2.rows, sqlEq (getFieldD r "id") v = false) →
          (upsert db tableName data).1 = db) := by
  intro db tableName data v hid htr
  have h1 : upsert db tableName data = (updateWhereId db tableName v data, v) := by
    unfold upsert
    have hv : getFieldD data "id" = v := by
      unfold getFieldD
      rw [hid]
      rfl
    simp only [hv, htr, if_true]
  refine ⟨h1, ?_⟩
  intro hno
  rw [h1]
  show updateWhereId db tableName v data = db
  unfold updateWhereId modifyTable
  cases db with
  | mk tables =>
      simp only
      congr 1
      have hpt : ∀ p ∈ tables,
          (if p.1 == tableName then
             (p.1, { p.2 with rows := p.2.rows.map (fun r =>
               if sqlEq (getFieldD r "id") v then mergeRow r data else r) })
           else p) = p := by
        intro p hp
        by_cases hname : p.1 = tableName
        · simp only [hname, beq_self_eq_true, if_true]
          have hrows : p.2.rows.map (fun r =>
              if sqlEq (getFieldD r "id") v then mergeRow r data else r) = p.2.rows := by
            have := List.map_congr_left (l := p.2.rows)
              (f := fun r => if sqlEq (getFieldD r "id") v then mergeRow r data else r)
              (g := fun r => r)
              (by
                intro r hr
                simp [hno p hp hname r hr])
            rw [this, List.map_id']
          rw [← hname]
          rw [hrows]
        · simp [beq_eq_false_iff_ne.mpr hname]
      rw [List.map_congr_left hpt, List.map_id']

/-- Witness for `upsert_truthy_id_is_update`: upserting `{id: 5}` into
a table with no row of id 5 leaves the table unchanged. -/
theorem upsert_truthy_id_is_update_witness :
    (upsert upsertDemoDB "users" [("id", .int 5), ("name", .str "n")]).1
      = upsertDemoDB := by
  have h := upsert_truthy_id_is_update upsertDemoDB "users"
    [("id", .int 5), ("name", .str "n")] (.int 5) rfl rfl
  refine h.2 ?_
  intro p hp hname r hr
  simp only [upsertDemoDB, List.mem_singleton] at hp
  subst hp
  simp at hr

/-! ## Claim theorems: pagination -/

theorem applyPage_noLimit (rows : List Row) (pg : Option Int) :
    applyPage rows none pg = rows := rfl

/-- C10: in `query`, the `page` parameter has an effect only when
`limit` is also given — with `limit` unset, a query with `page` set
returns exactly what the same query without `page` returns, because the
offset is computed only inside the limit branch. -/
theorem query_page_without_limit_is_noop :
    ∀ (db : SDB) (q : Query) (p : Int),
      coreQuery db { q with limit := none, page := some p }
        = coreQuery db { q with limit := none, page := none } := by
  intro db q p
  simp only [coreQuery, applyPage_noLimit]

/-! ## Claim theorems: foreign-key validation -/

/-- Whether every adjacent pair of a chain segment satisfies the
foreign-key naming convention, starting from parent `prev`. -/
def chainOk (db : SDB) (prev : String) : List TableQuery → Bool
  | [] => true
  | tq :: rest => hasCol db tq.table (fkFieldName prev) && chainOk db tq.table rest

/-- The table name of the last chain entry, `prev` for an empty
segment. -/
def lastTableName (prev : String) : List TableQuery → String
  | [] => prev
  | tq :: rest => lastTableName tq.table rest

theorem validateFKAux_err (db : SDB) :
    ∀ (pre : List TableQuery) (prev : String) (child : TableQuery)
      (post : List TableQuery),
      chainOk db prev pre = true →
      hasCol db child.table (fkFieldName (lastTableName prev pre)) = false →
      validateFKAux db prev (pre ++ child :: post)
        = .error (missingFKMsg (lastTableName prev pre) child.table) := by
  intro pre
  induction pre with
  | nil =>
      intro prev child post _ hmiss
      simp only [List.nil_append, validateFKAux, lastTableName] at hmiss ⊢
      simp [hmiss]
  | cons t pre ih =>
      intro prev child post hok hmiss
      simp only [chainOk, Bool.and_eq_true] at hok
      simp only [List.cons_append, validateFKAux, hok.1, if_true]
      exact ih t.table child post hok.2 hmiss

/-- C2: for every chain of two or more tables in which some non-root
table lacks the conventionally named foreign-key column of its
predecessor (and is the first such violation), `query` fails with the
error naming the child table, the expected `camelCase(parent) + "Id"`
column, and the parent table; the whole call returns only this error —
the root query is never run and no partial result tree is returned. -/
theorem query_missing_fk_rejected :
    ∀ (db : SDB) (q : Query) (t0 : TableQuery) (pre : List TableQuery)
      (child : TableQuery) (post : List TableQuery),
      q.table = t0 :: pre ++ child :: post →
      chainOk db t0.table pre = true →
      hasCol db child.table (fkFieldName (lastTableName t0.table pre)) = false →
      coreQuery db q
        = .error (missingFKMsg (lastTableName t0.table pre) child.table) := by
  intro db q t0 pre child post hq hok hmiss
  unfold coreQuery
  rw [hq]
  have hv := validateFKAux_err db pre t0.table child post hok hmiss
  simp [validateForeignKeyConnection, hv]

/-- Two declared tables with no foreign-key column on the child. -/
def noFKDB : SDB :=
  ⟨[("authors",
     { columns := [("id", idColumnSpec),
                   ("name", { ctype := "text", nullable := true, defaultValue := none })],
       fks := [], indexes := [], rows := [] }),
    ("books",
     { columns := [("id", idColumnSpec),
                   ("title", { ctype := "text", nullable := true, defaultValue := none })],
       fks := [], indexes := [], rows := [] })]⟩

/-- Witness for `query_missing_fk_rejected`: querying
`[authors, books]` when `books` has no `authorsId` column returns
exactly the missing-foreign-key error. -/
theorem query_missing_fk_rejected_witness :
    coreQuery noFKDB { table := [{ table := "authors" }, { table := "books" }] }
      = .error ("No foreign key connection found: Table 'books' must have a " ++
          "foreign key 'authorsId' referencing 'authors'") :=
  query_missing_fk_rejected noFKDB
    { table := [{ table := "authors" }, { table := "books" }] }
    { table := "authors" } [] { table := "books" } [] rfl rfl rfl

/-! ## Claim theorems: the two-table join shape -/

theorem except_bind_ok {ε α β : Type _} (x : α) (f : α → Except ε β) :
    (Except.ok x).bind f = f x := rfl

theorem mapM_loop_ok {α β : Type _} (g : α → β) :
    ∀ (xs : List α) (acc : List β),
      List.mapM.loop (fun x => (Except.ok (g x) : Except String β)) xs acc
        = .ok (acc.reverse ++ xs.map g) := by
  intro xs
  induction xs with
  | nil =>
      intro acc
      simp only [List.mapM.loop, List.map_nil, List.append_nil]
      rfl
  | cons x xs ih =>
      intro acc
      simp only [List.mapM.loop]
      show List.mapM.loop (fun x => (Except.ok (g x) : Except String β)) xs
        (g x :: acc) = _
      rw [ih (g x :: acc)]
      simp

theorem mapM_ok {α β : Type _} (g : α → β) :
    ∀ xs : List α,
      (xs.mapM (fun x => (Except.ok (g x) : Except String β)))
        = .ok (xs.map g) := by
  intro xs
  show List.mapM.loop _ xs [] = _
  rw [mapM_loop_ok g xs []]
  simp

theorem fetchForest_one (db : SDB) (pv cv : String) (parents : List Row) :
    fetchForest db pv [{ table := cv }] parents
      = .ok (parents.map (fun parent => setField parent cv
          (.list ((childRowsFor db cv pv parent).map .obj)))) :=
  mapM_ok _ parents

theorem lookup_none_of_any_false (k : String) (l : Row)
    (h : l.any (fun p => p.1 == k) = false) : List.lookup k l = none := by
  induction l with
  | nil => rfl
  | cons p l ih =>
      obtain ⟨a, b⟩ := p
      simp only [List.any_cons, Bool.or_eq_false_iff] at h
      have hk : (k == a) = false := by
        cases hk : (k == a) with
        | false => rfl
        | true =>
            have := eq_of_beq hk
            subst this
            simp at h
      simp only [List.lookup_cons, hk]
      exact ih h.2

theorem lookup_map_overwrite (k : String) (v : Value) (l : Row)
    (h : l.any (fun p => p.1 == k) = true) :
    List.lookup k (l.map (fun p => if p.1 == k then (k, v) else p)) = some v := by
  induction l with
  | nil => simp at h
  | cons p l ih =>
      obtain ⟨a, b⟩ := p
      simp only [List.any_cons] at h
      cases ha : ((a, b).1 == k) with
      | true =>
          rw [List.map_cons, if_pos ha]
          simp [List.lookup_cons]
      | false =>
          rw [List.map_cons, if_neg (by simp [ha])]
          rw [ha] at h
          simp only [Bool.false_or] at h
          have hk : (k == a) = false := by
            cases hkk : (k == a) with
            | false => rfl
            | true =>
                have heq := eq_of_beq hkk
                subst heq
                simp at ha
          simp only [List.lookup_cons, hk]
          exact ih h

theorem lookupField_setField (r : Row) (k : String) (v : Value) :
    lookupField (setField r k v) k = some v := by
  unfold setField lookupField
  by_cases h : (r.any (fun p => p.1 == k) = true)
  · rw [if_pos h]
    exact lookup_map_overwrite k v r h
  · rw [if_neg h]
    have hf : r.any (fun p => p.1 == k) = false := by
      cases hh : r.any (fun p => p.1 == k) with
      | false => rfl
      | true => exact absurd hh h
    rw [lookup_append_none _ (lookup_none_of_any_false k r hf)]
    simp [List.lookup_cons]

/-- C1: for every two-table chain `[P, C]` with no filters, `query`
returns exactly the selected rows of `P`, each extended with a field
named after `C` holding the array of exactly those `C` rows whose
`camelCase(P) + "Id"` column equals that row's id — and the `C` field
is present on every result row (an empty array when nothing matches),
never absent. -/
theorem query_two_table_join_shape :
    ∀ (db : SDB) (p c : String) (sorts : Option (List SortSpec))
      (lim pg : Option Int) (rs : List Row),
      coreQuery db { table := [{ table := p }, { table := c }], query := none,
                     sort := sorts, page := pg, limit := lim } = .ok rs →
      rs = (applyPage (applySorts (rowsOf db p) (sorts.getD [])) lim pg).map
            (fun row => setField row c (.list
              (((rowsOf db c).filter (fun r =>
                  sqlEq (getFieldD r (camelCase p ++ "Id"))
                    (getFieldD row "id"))).map .obj)))
      ∧ ∀ row ∈ rs, ∃ vs, lookupField row c = some (.list vs) := by
  intro db p c sorts lim pg rs h
  cases hv : validateForeignKeyConnection db
      [{ table := p }, { table := c }] with
  | error e =>
      have herr : coreQuery db
          ⟨[{ table := p }, { table := c }], none, sorts, pg, lim⟩
          = .error e := by
        unfold coreQuery
        rw [hv]
      rw [herr] at h
      cases h
  | ok u =>
      have hunf : coreQuery db
          ⟨[{ table := p }, { table := c }], none, sorts, pg, lim⟩
          = fetchForest db p [{ table := c }]
              (applyPage (applySorts (rowsOf db p) (sorts.getD [])) lim pg) := by
        unfold coreQuery
        rw [hv]
        rfl
      rw [hunf, fetchForest_one db p c] at h
      injection h with h2
      subst h2
      refine ⟨rfl, ?_⟩
      intro row hrow
      obtain ⟨parent, _, hpar⟩ := List.mem_map.mp hrow
      exact ⟨(childRowsFor db c p parent).map .obj,
        hpar ▸ lookupField_setField parent c _⟩

/-- The authors/books fixture: one author with two books, one author
with none. -/
def joinDemoDB : SDB :=
  ⟨[("authors",
     { columns := [("id", idColumnSpec),
                   ("name", { ctype := "text", nullable := true, defaultValue := none })],
       fks := [], indexes := [],
       rows := [[("id", .int 1), ("name", .str "king")],
                [("id", .int 2), ("name", .str "jone")]] }),
    ("books",
     { columns := [("id", idColumnSpec),
                   ("title", { ctype := "text", nullable := true, defaultValue := none }),
                   ("authorsId", { ctype := "integer", nullable := true, defaultValue := none })],
       fks := [{ fromCol := "authorsId", refTable := "authors", toCol := "id" }],
       indexes := [],
       rows := [[("id", .int 1), ("title", .str "shining"), ("authorsId", .int 1)],
                [("id", .int 2), ("title", .str "it"), ("authorsId", .int 1)]] })]⟩

/-- The nested result of querying the fixture on `[authors, books]`. -/
def joinDemoResult : List Row :=
  [[("id", .int 1), ("name", .str "king"),
    ("books", .list [.obj [("id", .int 1), ("title", .str "shining"), ("authorsId", .int 1)],
                     .obj [("id", .int 2), ("title", .str "it"), ("authorsId", .int 1)]])],
   [("id", .int 2), ("name", .str "jone"), ("books", .list [])]]

/-- Witness for `query_two_table_join_shape` on the authors/books
fixture. -/
theorem query_two_table_join_shape_witness :
    joinDemoResult
      = (applyPage (applySorts (rowsOf joinDemoDB "authors") []) none none).map
          (fun row => setField row "books" (.list
            (((rowsOf joinDemoDB "books").filter (fun r =>
                sqlEq (getFieldD r (camelCase "authors" ++ "Id"))
                  (getFieldD row "id"))).map .obj))) :=
  (query_two_table_join_shape joinDemoDB "authors" "books" none none none
    joinDemoResult rfl).1

/-! ## Helper lemmas on the type mapping -/

theorem knexType_ok_mem (f : FieldDef) (kt : String)
    (hk : getKnexFieldType f = .ok kt) (hne : (kt == "") = false) :
    (["text", "uuid", "integer", "decimal", "float", "double",
      "boolean", "binary", "date", "datetime", "time"].contains kt) = true := by
  cases ht : f.type <;> simp [getKnexFieldType, ht] at hk <;> try subst hk
  all_goals first
    | rfl
    | (simp at hne)

theorem translateType_ok (f : FieldDef) (kt : String)
    (hk : getKnexFieldType f = .ok kt) (hne : (kt == "") = false) :
    translateType f = .ok kt := by
  unfold translateType
  rw [hk]
  show (if _ then _ else _) = _
  rw [if_pos (knexType_ok_mem f kt hk hne)]

theorem isFKField_type (f : FieldDef) (h : isFKField f = true) :
    f.type = .ReferenceManyToOne := by
  unfold isFKField at h
  exact eq_of_beq ((Bool.and_eq_true _ _).mp h).1

theorem colSpecFor_ok (f : FieldDef) (kt : String)
    (hk : getKnexFieldType f = .ok kt) (hne : (kt == "") = false) :
    colSpecFor f = .ok (mkColSpec f kt) := by
  unfold colSpecFor
  by_cases hfk : isFKField f = true
  · rw [if_pos hfk]
    have ht := isFKField_type f hfk
    have hkt : kt = "integer" := by
      simp [getKnexFieldType, ht] at hk
      exact hk.symm
    rw [hkt]
  · rw [if_neg hfk]
    rw [translateType_ok f kt hk hne]
    rfl

/-! ## Claim theorems: fail-fast on unsupported field types -/

/-- The payload of the first field in the list whose type lies outside
the declared enum (the first field on which `getKnexFieldType`
raises). -/
def firstBadType : List FieldDef → Option String
  | [] => none
  | f :: rest =>
      match f.type with
      | .Other s => some s
      | _ => firstBadType rest

theorem buildCreateCols_err (tableName : String) :
    ∀ (fields : List FieldDef) (s : String),
      firstBadType fields = some s →
      buildCreateCols tableName fields
        = .error ("Unsupported field type: " ++ s) := by
  intro fields
  induction fields with
  | nil => intro s h; simp [firstBadType] at h
  | cons f rest ih =>
      intro s h
      by_cases hOther : ∃ s2, f.type = .Other s2
      · obtain ⟨s2, ht⟩ := hOther
        have hs : s2 = s := by
          unfold firstBadType at h
          rw [ht] at h
          simpa using h
        subst hs
        unfold buildCreateCols
        rw [show getKnexFieldType f = .error ("Unsupported field type: " ++ s2)
          from by simp [getKnexFieldType, ht]]
        rfl
      · have hok : ∃ kt, getKnexFieldType f = .ok kt := by
          cases ht : f.type
          case Other s2 => exact absurd ⟨s2, ht⟩ hOther
          all_goals simp [getKnexFieldType, ht]
        obtain ⟨kt, hk⟩ := hok
        have hrest : firstBadType rest = some s := by
          unfold firstBadType at h
          cases ht : f.type
          case Other s2 => exact absurd ⟨s2, ht⟩ hOther
          all_goals (rw [ht] at h; simpa using h)
        unfold buildCreateCols
        rw [hk]
        show (if _ then _ else _) = _
        by_cases hkt : (kt == "") = true
        · rw [if_pos hkt]
          exact ih s hrest
        · have hne : (kt == "") = false := by
            cases hc : (kt == "") with
            | false => rfl
            | true => exact absurd hc hkt
          rw [if_neg hkt]
          rw [colSpecFor_ok f kt hk hne]
          show ((buildCreateCols tableName rest).map _) = _
          rw [ih s hrest]
          rfl

/-- C7 (amended): on the create path (table absent), a table definition
containing a field whose type lies outside the supported enum makes
`schemaCreateOrUpdate` abort with the unsupported-field-type error of
the first such field, with no DDL issued and the schema unchanged.  (On
the reconcile path the abort still happens, but DDL already issued for
earlier fields persists — see the counterexample.) -/
theorem schemaCU_create_fail_fast :
    ∀ (db : SDB) (td : TableDefinition) (s : String),
      getTable db td.name = none →
      firstBadType td.fields = some s →
      schemaCreateOrUpdate db td
        = (.error ("Unsupported field type: " ++ s), db, []) := by
  intro db td s habs hbad
  unfold schemaCreateOrUpdate
  rw [habs]
  unfold createPath
  rw [buildCreateCols_err td.name td.fields s hbad]

/-- Witness for `schemaCU_create_fail_fast` on an empty database. -/
theorem schemaCU_create_fail_fast_witness :
    schemaCreateOrUpdate ⟨[]⟩
        { name := "invalid",
          fields := [{ name := "f", type := .Other "InvalidType" }] }
      = (.error "Unsupported field type: InvalidType", ⟨[]⟩, []) :=
  schemaCU_create_fail_fast ⟨[]⟩
    { name := "invalid",
      fields := [{ name := "f", type := .Other "InvalidType" }] }
    "InvalidType" rfl rfl

/-- An existing `users` table with a nullable text `name` column and
one row. -/
def usersDemoDB : SDB :=
  ⟨[("users",
     { columns := [("id", idColumnSpec),
                   ("name", { ctype := "text", nullable := true, defaultValue := none })],
       fks := [], indexes := [],
       rows := [[("id", .int 1), ("name", .str "bob")]] })]⟩

/-- Counterexample to C7 as stated: on the reconcile path (table
exists), a definition adding a new `address` column before a field of
unsupported type aborts with the unsupported-type error only *after*
the `ADD COLUMN` DDL for `address` has been issued — the schema is not
left unchanged. -/
theorem schemaCU_reconcile_ddl_before_type_error :
    (schemaCreateOrUpdate usersDemoDB
        { name := "users",
          fields := [{ name := "address", type := .Text },
                     { name := "bad", type := .Other "InvalidType" }] }).1
      = .error "Unsupported field type: InvalidType"
    ∧ (schemaCreateOrUpdate usersDemoDB
        { name := "users",
          fields := [{ name := "address", type := .Text },
                     { name := "bad", type := .Other "InvalidType" }] }).2.2
      = [.addColumn "users" "address"]
    ∧ columnNamesOf (schemaCreateOrUpdate usersDemoDB
        { name := "users",
          fields := [{ name := "address", type := .Text },
                     { name := "bad", type := .Other "InvalidType" }] }).2.1 "users"
      = ["id", "name", "address"] :=
  ⟨rfl, rfl, rfl⟩

/-! ## Claim theorems: the rebuild-and-copy path -/

/-- A definition changing the `users.name` column from text to integer,
which on SQLite triggers the rebuild-and-copy branch. -/
def rebuildDemoTD : TableDefinition :=
  { name := "users", fields := [{ name := "name", type := .Integer }] }

/-- C4 exhibit: on the rebuild-and-copy path the engine creates the
shadow table, bulk-copies the rows, drops the original and renames the
shadow into place — and then falls through to the add-column step,
which re-adds the changed field and fails with SQLite's
duplicate-column error, so the call never completes successfully.  The
rebuilt table does retain its row with all values intact when the error
surfaces. -/
theorem schemaCU_rebuild_duplicate_column :
    (schemaCreateOrUpdate usersDemoDB rebuildDemoTD).1
      = .error "duplicate column name: name"
    ∧ rowsOf (schemaCreateOrUpdate usersDemoDB rebuildDemoTD).2.1 "users"
        = [[("id", .int 1), ("name", .str "bob")]]
    ∧ (schemaCreateOrUpdate usersDemoDB rebuildDemoTD).2.2
        = [.createTable "users_temp", .copyRows "users" "users_temp",
           .dropTable "users", .renameTable "users_temp" "users"] :=
  ⟨rfl, rfl, rfl⟩

/-! ## State helper lemmas for the schema engine -/

theorem getTable_modify_self (db : SDB) (nm : String) (g : STable → STable) :
    getTable (modifyTable db nm g) nm = (getTable db nm).map g :=
  lookup_modify_self nm g db.tables

theorem getTable_modify_other {k : String} (db : SDB) (nm : String)
    (hk : k ≠ nm) (g : STable → STable) :
    getTable (modifyTable db nm g) k = getTable db k :=
  lookup_modify_other nm hk g db.tables

theorem getTable_addTable (db : SDB) (nm : String) (t : STable)
    (h : getTable db nm = none) : getTable (addTable db nm t) nm = some t := by
  unfold getTable addTable at *
  rw [lookup_append_none _ h]
  simp [List.lookup_cons]

theorem getTable_remove_self (db : SDB) (nm : String) :
    getTable (removeTable db nm) nm = none :=
  lookup_filter_self nm db.tables

theorem getTable_remove_other {k : String} (db : SDB) (nm : String)
    (hk : k ≠ nm) : getTable (removeTable db nm) k = getTable db k :=
  lookup_filter_ne hk db.tables

theorem getTable_rename (db : SDB) (oldName newName : String)
    (h : getTable db newName = none) :
    getTable (renameTableState db oldName newName) newName
      = getTable db oldName :=
  lookup_rename h

theorem hasTable_false_getTable {db : SDB} {nm : String}
    (h : hasTable db nm = false) : getTable db nm = none := by
  unfold hasTable at h
  exact Option.not_isSome_iff_eq_none.mp (by simp [h])

theorem string_append_temp_ne (s : String) : s ++ "_temp" ≠ s := by
  intro h
  have hlen := congrArg String.length h
  rw [String.length_append] at hlen
  have h5 : ("_temp" : String).length = 5 := rfl
  omega

/-! ## The settled-field invariant -/

/-- A field is settled in a database state when its knex type computes,
and — unless it is a skipped to-many reference — the table holds a
column of its name whose stored specification matches the definition,
with the foreign-key constraint in place for an inline-reference
field.  A settled field makes the reconcile loop `continue` without
issuing DDL. -/
def fieldSettled (db : SDB) (tdName : String) (f : FieldDef) : Prop :=
  ∃ kt, getKnexFieldType f = .ok kt ∧
    ((kt == "") = false →
      ∃ spec, List.lookup f.name (colsOf db tdName) = some spec
        ∧ columnMatches spec f kt = true
        ∧ (isFKField f = true → hasFKFor db tdName f = true))

theorem columnMatches_mk (f : FieldDef) (kt : String) :
    columnMatches (mkColSpec f kt) f kt = true := by
  simp [columnMatches, mkColSpec]

theorem fieldFK_of_isFK (f : FieldDef) (h : isFKField f = true) :
    fieldFK f = some { fromCol := f.name, refTable := f.foreignTable.getD "",
                       toCol := "id" } := by
  unfold fieldFK
  exact if_pos h

theorem isFKField_ft (f : FieldDef) (h : isFKField f = true) :
    ∃ ft, f.foreignTable = some ft := by
  unfold isFKField at h
  have h2 := ((Bool.and_eq_true _ _).mp h).2
  unfold truthyStr at h2
  cases hft : f.foreignTable with
  | none => rw [hft] at h2; cases h2
  | some ft => exact ⟨ft, rfl⟩

theorem hasFKFor_of_mem (db : SDB) (tdName : String) (f : FieldDef)
    (ft : String) (hft : f.foreignTable = some ft)
    (hmem : ({ fromCol := f.name, refTable := ft, toCol := "id" } : FKSpec)
      ∈ getForeignKeys db tdName) : hasFKFor db tdName f = true := by
  unfold hasFKFor
  rw [hft]
  exact List.any_eq_true.mpr ⟨_, hmem, by simp⟩

/-- A state transition that only grows the table: every column lookup
and every foreign key is preserved, and the table keeps existing. -/
def tablePreserved (tdName : String) (db db' : SDB) : Prop :=
  (∀ k v, List.lookup k (colsOf db tdName) = some v →
      List.lookup k (colsOf db' tdName) = some v)
  ∧ (∀ fk, fk ∈ getForeignKeys db tdName → fk ∈ getForeignKeys db' tdName)
  ∧ ((getTable db tdName).isSome → (getTable db' tdName).isSome)

theorem tablePreserved_refl (tdName : String) (db : SDB) :
    tablePreserved tdName db db :=
  ⟨fun _ _ h => h, fun _ h => h, fun h => h⟩

theorem tablePreserved_trans {tdName : String} {db1 db2 db3 : SDB}
    (h1 : tablePreserved tdName db1 db2) (h2 : tablePreserved tdName db2 db3) :
    tablePreserved tdName db1 db3 :=
  ⟨fun k v h => h2.1 k v (h1.1 k v h),
   fun fk h => h2.2.1 fk (h1.2.1 fk h),
   fun h => h2.2.2 (h1.2.2 h)⟩

theorem fieldSettled_mono {tdName : String} {db db' : SDB} {f : FieldDef}
    (hp : tablePreserved tdName db db') (hs : fieldSettled db tdName f) :
    fieldSettled db' tdName f := by
  obtain ⟨kt, hk, himp⟩ := hs
  refine ⟨kt, hk, fun hne => ?_⟩
  obtain ⟨spec, hlook, hmatch, hfk⟩ := himp hne
  refine ⟨spec, hp.1 _ _ hlook, hmatch, fun hisfk => ?_⟩
  have h1 := hfk hisfk
  obtain ⟨ft, hft⟩ := isFKField_ft f hisfk
  unfold hasFKFor at h1 ⊢
  rw [hft] at h1 ⊢
  obtain ⟨fk, hmem, hpred⟩ := List.any_eq_true.mp h1
  exact List.any_eq_true.mpr ⟨fk, hp.2.1 fk hmem, hpred⟩

theorem reconcileFields_cons_ok (tdName : String)
    (snap : List (String × ColumnSpec)) (idxSnap : List String)
    (allFields : List FieldDef) (db : SDB) (f : FieldDef)
    (rest : List FieldDef) (kt : String)
    (hk : getKnexFieldType f = .ok kt) :
    reconcileFields tdName snap idxSnap allFields db (f :: rest)
      = if (kt == "") = true then
          reconcileFields tdName snap idxSnap allFields db rest
        else
          match processField db tdName snap idxSnap allFields f kt with
          | (.error e, db1, t1) => (.error e, db1, t1)
          | (.ok _, db1, t1) =>
              match reconcileFields tdName snap idxSnap allFields db1 rest with
              | (r, db2, t2) => (r, db2, t1 ++ t2) := by
  conv_lhs => unfold reconcileFields
  rw [hk]

theorem processField_some (db : SDB) (tdName : String)
    (snap : List (String × ColumnSpec)) (idxSnap : List String)
    (allFields : List FieldDef) (f : FieldDef) (kt : String)
    (spec : ColumnSpec) (hlook : List.lookup f.name snap = some spec) :
    processField db tdName snap idxSnap allFields f kt
      = if (columnMatches spec f kt
            && !(isFKField f && !hasFKFor db tdName f)) = true
        then (.ok (), db, [])
        else
          match rebuildTable db tdName snap allFields f with
          | (.error e, db1, t1) => (.error e, db1, t1)
          | (.ok _, db1, t1) =>
              match addColumnAndIndex db1 tdName idxSnap f with
              | (r, db2, t2) => (r, db2, t1 ++ t2) := by
  conv_lhs => unfold processField
  rw [hlook]

theorem processField_none (db : SDB) (tdName : String)
    (snap : List (String × ColumnSpec)) (idxSnap : List String)
    (allFields : List FieldDef) (f : FieldDef) (kt : String)
    (hlook : List.lookup f.name snap = none) :
    processField db tdName snap idxSnap allFields f kt
      = addColumnAndIndex db tdName idxSnap f := by
  conv_lhs => unfold processField
  rw [hlook]

/-- A database whose fields are all settled reconciles to itself: the
loop finds every column matching and skips it, issuing no DDL. -/
theorem reconcile_all_settled (tdName : String) (idxSnap : List String)
    (allFields : List FieldDef) :
    ∀ (fields : List FieldDef) (db : SDB) (snap : List (String × ColumnSpec)),
      snap = colsOf db tdName →
      (∀ f ∈ fields, fieldSettled db tdName f) →
      reconcileFields tdName snap idxSnap allFields db fields
        = (.ok (), db, []) := by
  intro fields
  induction fields with
  | nil => intro db snap _ _; rfl
  | cons f rest ih =>
      intro db snap hsnap hset
      obtain ⟨kt, hk, himp⟩ := hset f (List.mem_cons_self f rest)
      rw [reconcileFields_cons_ok tdName snap idxSnap allFields db f rest kt hk]
      by_cases hkt : (kt == "") = true
      · rw [if_pos hkt]
        exact ih db snap hsnap (fun g hg => hset g (List.mem_cons_of_mem f hg))
      · have hne : (kt == "") = false := by
          cases hc : (kt == "") with
          | false => rfl
          | true => exact absurd hc hkt
        rw [if_neg hkt]
        obtain ⟨spec, hlook, hmatch, hfk⟩ := himp hne
        have hlook2 : List.lookup f.name snap = some spec := by
          rw [hsnap]
          exact hlook
        have hcond : (columnMatches spec f kt
            && !(isFKField f && !hasFKFor db tdName f)) = true := by
          rw [hmatch]
          by_cases hisfk : isFKField f = true
          · rw [hisfk, hfk hisfk]
            rfl
          · have hff : isFKField f = false := by
              cases hc : isFKField f with
              | false => rfl
              | true => exact absurd hc hisfk
            rw [hff]
            rfl
        have hproc : processField db tdName snap idxSnap allFields f kt
            = (.ok (), db, []) := by
          rw [processField_some db tdName snap idxSnap allFields f kt spec hlook2]
          rw [if_pos hcond]
        rw [hproc]
        show (match reconcileFields tdName snap idxSnap allFields db rest with
              | (r, db2, t2) => (r, db2, ([] : List DDL) ++ t2))
          = (.ok (), db, [])
        rw [ih db snap hsnap (fun g hg => hset g (List.mem_cons_of_mem f hg))]
        rfl

/-! ## The add-column step of the reconcile loop -/

theorem colsOf_eq {db : SDB} {tdName : String} {t : STable}
    (ht : getTable db tdName = some t) : colsOf db tdName = t.columns := by
  unfold colsOf
  rw [ht]
  rfl

theorem fksOf_eq {db : SDB} {tdName : String} {t : STable}
    (ht : getTable db tdName = some t) :
    getForeignKeys db tdName = t.fks := by
  unfold getForeignKeys
  rw [ht]
  rfl

/-- The state after the `ADD COLUMN` backend call for field `f`. -/
def addColState (db : SDB) (tdName : String) (f : FieldDef) (spec : ColumnSpec) : SDB :=
  modifyTable db tdName (fun tb =>
    { tb with columns := tb.columns ++ [(f.name, spec)],
              fks := tb.fks ++ (match fieldFK f with
                                | some fk => [fk]
                                | none => []) })

theorem add_step_core (db : SDB) (tdName : String) (f : FieldDef) (kt : String)
    (t : STable) (hk : getKnexFieldType f = .ok kt) (_hne : (kt == "") = false)
    (ht : getTable db tdName = some t)
    (hcolf : hasCol db tdName f.name = false) :
    tablePreserved tdName db (addColState db tdName f (mkColSpec f kt))
    ∧ fieldSettled (addColState db tdName f (mkColSpec f kt)) tdName f
    ∧ (getTable (addColState db tdName f (mkColSpec f kt)) tdName).isSome := by
  have ht1 : getTable (addColState db tdName f (mkColSpec f kt)) tdName
      = some { t with
          columns := t.columns ++ [(f.name, mkColSpec f kt)],
          fks := t.fks ++ (match fieldFK f with
                           | some fk => [fk]
                           | none => []) } := by
    unfold addColState
    rw [getTable_modify_self, ht]
    rfl
  have hcols1 : colsOf (addColState db tdName f (mkColSpec f kt)) tdName
      = t.columns ++ [(f.name, mkColSpec f kt)] := colsOf_eq ht1
  have hfks1 : getForeignKeys (addColState db tdName f (mkColSpec f kt)) tdName
      = t.fks ++ (match fieldFK f with
                  | some fk => [fk]
                  | none => []) := fksOf_eq ht1
  have hlknone : List.lookup f.name t.columns = none := by
    apply lookup_eq_none_of_not_contains
    have : columnNamesOf db tdName = t.columns.map Prod.fst := by
      unfold columnNamesOf
      rw [colsOf_eq ht]
    unfold hasCol at hcolf
    rw [this] at hcolf
    exact hcolf
  refine ⟨⟨?_, ?_, ?_⟩, ?_, ?_⟩
  · intro k v hkv
    rw [colsOf_eq ht] at hkv
    rw [hcols1]
    exact lookup_append_some hkv
  · intro fk hfk
    rw [fksOf_eq ht] at hfk
    rw [hfks1]
    exact List.mem_append_left _ hfk
  · intro _
    rw [ht1]
    rfl
  · refine ⟨kt, hk, fun _ => ⟨mkColSpec f kt, ?_, columnMatches_mk f kt, ?_⟩⟩
    · rw [hcols1, lookup_append_none _ hlknone]
      simp [List.lookup_cons]
    · intro hisfk
      obtain ⟨ft, hft⟩ := isFKField_ft f hisfk
      apply hasFKFor_of_mem _ _ _ ft hft
      rw [hfks1, fieldFK_of_isFK f hisfk]
      apply List.mem_append_right
      rw [hft]
      simp
  · rw [ht1]
    rfl

theorem modify_indexes_cols (db : SDB) (tdName : String) (idxName : String) :
    colsOf (modifyTable db tdName (fun tb =>
        { tb with indexes := tb.indexes ++ [idxName] })) tdName
      = colsOf db tdName
    ∧ getForeignKeys (modifyTable db tdName (fun tb =>
        { tb with indexes := tb.indexes ++ [idxName] })) tdName
      = getForeignKeys db tdName
    ∧ ((getTable db tdName).isSome →
        (getTable (modifyTable db tdName (fun tb =>
          { tb with indexes := tb.indexes ++ [idxName] })) tdName).isSome) := by
  unfold colsOf getForeignKeys
  rw [getTable_modify_self]
  cases getTable db tdName <;> simp

theorem tablePreserved_of_eq {tdName : String} {db db' : SDB}
    (hcols : colsOf db' tdName = colsOf db tdName)
    (hfks : getForeignKeys db' tdName = getForeignKeys db tdName)
    (hsome : (getTable db tdName).isSome → (getTable db' tdName).isSome) :
    tablePreserved tdName db db' :=
  ⟨fun k v h => by rw [hcols]; exact h,
   fun fk h => by rw [hfks]; exact h, hsome⟩

theorem addColumnAndIndex_eq (db : SDB) (tdName : String)
    (idxSnap : List String) (f : FieldDef) (spec : ColumnSpec)
    (hcol : hasCol db tdName f.name = false)
    (hcs : colSpecFor f = .ok spec) :
    addColumnAndIndex db tdName idxSnap f
      = (if truthyStr f.indexed = true then
           (if idxSnap.contains (idxNameFor tdName f) = true then
              ((.ok (), addColState db tdName f spec,
                [DDL.addColumn tdName f.name]) :
                Except String Unit × SDB × List DDL)
            else
              (.ok (), modifyTable (addColState db tdName f spec) tdName
                 (fun tb => { tb with
                    indexes := tb.indexes ++ [idxNameFor tdName f] }),
               [DDL.addColumn tdName f.name,
                DDL.addIndex tdName (idxNameFor tdName f)]))
         else (.ok (), addColState db tdName f spec,
               [DDL.addColumn tdName f.name])) := by
  conv_lhs => unfold addColumnAndIndex
  rw [if_neg (by rw [hcol]; simp), hcs]
  rfl

theorem addColumnAndIndex_ok (db : SDB) (tdName : String)
    (idxSnap : List String) (f : FieldDef) (kt : String) (t : STable)
    (hk : getKnexFieldType f = .ok kt) (hne : (kt == "") = false)
    (ht : getTable db tdName = some t) :
    ∀ (u : Unit) (db2 : SDB) (tr : List DDL),
      addColumnAndIndex db tdName idxSnap f = (.ok u, db2, tr) →
      tablePreserved tdName db db2 ∧ fieldSettled db2 tdName f
        ∧ (getTable db2 tdName).isSome := by
  intro u db2 tr h
  by_cases hcol : hasCol db tdName f.name = true
  · unfold addColumnAndIndex at h
    rw [if_pos hcol] at h
    simp [Prod.mk.injEq] at h
  · have hcolf : hasCol db tdName f.name = false := by
      cases hc : hasCol db tdName f.name with
      | false => rfl
      | true => exact absurd hc hcol
    rw [addColumnAndIndex_eq db tdName idxSnap f (mkColSpec f kt) hcolf
      (colSpecFor_ok f kt hk hne)] at h
    obtain ⟨hpres, hset, hsome⟩ := add_step_core db tdName f kt t hk hne ht hcolf
    by_cases hidx : truthyStr f.indexed = true
    · rw [if_pos hidx] at h
      by_cases hin : idxSnap.contains (idxNameFor tdName f) = true
      · rw [if_pos hin] at h
        simp only [Prod.mk.injEq] at h
        obtain ⟨_, hdb, _⟩ := h
        subst hdb
        exact ⟨hpres, hset, hsome⟩
      · rw [if_neg hin] at h
        simp only [Prod.mk.injEq] at h
        obtain ⟨_, hdb, _⟩ := h
        subst hdb
        obtain ⟨hc2, hf2, hs2⟩ :=
          modify_indexes_cols (addColState db tdName f (mkColSpec f kt))
            tdName (idxNameFor tdName f)
        refine ⟨tablePreserved_trans hpres
          (tablePreserved_of_eq hc2 hf2 hs2), ?_, hs2 hsome⟩
        exact fieldSettled_mono (tablePreserved_of_eq hc2 hf2 hs2) hset
    · rw [if_neg hidx] at h
      simp only [Prod.mk.injEq] at h
      obtain ⟨_, hdb, _⟩ := h
      subst hdb
      exact ⟨hpres, hset, hsome⟩


/-! ## The rebuild branch always collides with the add-column step -/

theorem buildTempCols_mem (snap : List (String × ColumnSpec)) (f : FieldDef) :
    ∀ (allFields : List FieldDef) (cols : List (String × ColumnSpec))
      (fks : List FKSpec),
      f ∈ allFields →
      buildTempCols snap f allFields = .ok (cols, fks) →
      f.name ∈ cols.map Prod.fst := by
  intro allFields
  induction allFields with
  | nil => intro cols fks hmem _; simp at hmem
  | cons g rest ih =>
      intro cols fks hmem hb
      unfold buildTempCols at hb
      by_cases hg : (g.name == f.name) = true
      · rw [if_pos hg] at hb
        cases hcs : colSpecFor g with
        | error e =>
            rw [hcs] at hb
            exact Except.noConfusion hb
        | ok spec =>
            rw [hcs] at hb
            cases hrec : buildTempCols snap f rest with
            | error e =>
                rw [hrec] at hb
                exact Except.noConfusion hb
            | ok pr =>
                obtain ⟨c2, f2⟩ := pr
                rw [hrec] at hb
                have heq := Except.ok.inj hb
                have hcols : (g.name, spec) :: c2 = cols :=
                  congrArg Prod.fst heq
                rw [← hcols]
                simp only [List.map_cons]
                have : g.name = f.name := eq_of_beq hg
                rw [this]
                exact List.mem_cons_self _ _
      · rw [if_neg hg] at hb
        have hfrest : f ∈ rest := by
          rcases List.mem_cons.mp hmem with he | hmem2
          · have : (g.name == f.name) = true := by
              rw [he]
              simp
            exact absurd this hg
          · exact hmem2
        cases hlk : List.lookup g.name snap with
        | some ec =>
            rw [hlk] at hb
            cases htt : translateType g with
            | error e =>
                rw [htt] at hb
                exact Except.noConfusion hb
            | ok ct =>
                rw [htt] at hb
                cases hrec : buildTempCols snap f rest with
                | error e =>
                    rw [hrec] at hb
                    exact Except.noConfusion hb
                | ok pr =>
                    obtain ⟨c2, f2⟩ := pr
                    rw [hrec] at hb
                    have heq : ((g.name,
                        { ctype := ct, nullable := ec.nullable,
                          defaultValue := ec.defaultValue }) :: c2, f2)
                        = (cols, fks) := Except.ok.inj hb
                    have hcols : (g.name,
                        { ctype := ct, nullable := ec.nullable,
                          defaultValue := ec.defaultValue }) :: c2 = cols :=
                      congrArg Prod.fst heq
                    rw [← hcols]
                    simp only [List.map_cons]
                    exact List.mem_cons_of_mem _ (ih c2 f2 hfrest hrec)
        | none =>
            rw [hlk] at hb
            exact ih cols fks hfrest hb

theorem getTable_after_rebuild (db : SDB) (tdName : String) (ttab : STable)
    (g : STable → STable)
    (hnone : getTable db (tdName ++ "_temp") = none) :
    getTable (renameTableState
        (removeTable
          (modifyTable (addTable db (tdName ++ "_temp") ttab)
            (tdName ++ "_temp") g)
          tdName)
        (tdName ++ "_temp") tdName) tdName
      = some (g ttab) := by
  have hne := string_append_temp_ne tdName
  have h1 : getTable (addTable db (tdName ++ "_temp") ttab)
      (tdName ++ "_temp") = some ttab := getTable_addTable db _ ttab hnone
  have h2 : getTable (modifyTable (addTable db (tdName ++ "_temp") ttab)
      (tdName ++ "_temp") g) (tdName ++ "_temp") = some (g ttab) := by
    rw [getTable_modify_self, h1]
    rfl
  have h4 : getTable (removeTable
      (modifyTable (addTable db (tdName ++ "_temp") ttab)
        (tdName ++ "_temp") g) tdName) tdName = none :=
    getTable_remove_self _ tdName
  rw [getTable_rename _ _ _ h4]
  rw [getTable_remove_other _ _ hne]
  exact h2

theorem rebuild_makes_col (db : SDB) (tdName : String)
    (snap : List (String × ColumnSpec)) (allFields : List FieldDef)
    (f : FieldDef) (hmem : f ∈ allFields) :
    ∀ (u : Unit) (dbr : SDB) (tr : List DDL),
      rebuildTable db tdName snap allFields f = (.ok u, dbr, tr) →
      hasCol dbr tdName f.name = true := by
  intro u dbr tr h
  unfold rebuildTable at h
  cases hb : buildTempCols snap f allFields with
  | error e =>
      rw [hb] at h
      simp [Prod.mk.injEq] at h
  | ok pr =>
      obtain ⟨cols, fks⟩ := pr
      rw [hb] at h
      replace h : (match createTableRaw db (tdName ++ "_temp")
          (("id", idColumnSpec) :: cols) fks [] with
        | (.error e, dbx, tx) => ((.error e : Except String Unit), dbx, tx)
        | (.ok _, dbx, tx) =>
            match copyRowsPositional (columnNamesOf dbx tdName)
                (columnNamesOf dbx (tdName ++ "_temp")) (rowsOf dbx tdName) with
            | .error e => ((.error e : Except String Unit), dbx, tx)
            | .ok copied =>
                (.ok (), renameTableState
                   (removeTable (modifyTable dbx (tdName ++ "_temp")
                     (fun t => { t with rows := copied })) tdName)
                   (tdName ++ "_temp") tdName,
                 tx ++ [DDL.copyRows tdName (tdName ++ "_temp"),
                        DDL.dropTable tdName,
                        DDL.renameTable (tdName ++ "_temp") tdName]))
          = (.ok u, dbr, tr) := h
      rcases hct : createTableRaw db (tdName ++ "_temp")
          (("id", idColumnSpec) :: cols) fks [] with ⟨r1, dbx, tx⟩
      rw [hct] at h
      cases r1 with
      | error e => simp [Prod.mk.injEq] at h
      | ok a =>
          have hct2 := hct
          unfold createTableRaw at hct2
          by_cases hht : hasTable db (tdName ++ "_temp") = true
          · rw [if_pos hht] at hct2
            simp [Prod.mk.injEq] at hct2
          · have hhtf : hasTable db (tdName ++ "_temp") = false := by
              cases hc : hasTable db (tdName ++ "_temp") with
              | false => rfl
              | true => exact absurd hc hht
            rw [if_neg hht] at hct2
            by_cases hnd :
                ((List.map (fun p => p.1) (("id", idColumnSpec) :: cols)).Nodup)
            · rw [if_pos hnd] at hct2
              simp only [Prod.mk.injEq] at hct2
              obtain ⟨_, hdbx, _⟩ := hct2
              subst hdbx
              replace h : (match copyRowsPositional
                  (columnNamesOf (addTable db (tdName ++ "_temp")
                    { columns := ("id", idColumnSpec) :: cols, fks := fks,
                      indexes := [], rows := [] }) tdName)
                  (columnNamesOf (addTable db (tdName ++ "_temp")
                    { columns := ("id", idColumnSpec) :: cols, fks := fks,
                      indexes := [], rows := [] }) (tdName ++ "_temp"))
                  (rowsOf (addTable db (tdName ++ "_temp")
                    { columns := ("id", idColumnSpec) :: cols, fks := fks,
                      indexes := [], rows := [] }) tdName) with
                | .error e => ((.error e : Except String Unit),
                    addTable db (tdName ++ "_temp")
                      { columns := ("id", idColumnSpec) :: cols, fks := fks,
                        indexes := [], rows := [] }, tx)
                | .ok copied =>
                    (.ok (), renameTableState
                       (removeTable (modifyTable
                         (addTable db (tdName ++ "_temp")
                           { columns := ("id", idColumnSpec) :: cols,
                             fks := fks, indexes := [], rows := [] })
                         (tdName ++ "_temp")
                         (fun t => { t with rows := copied })) tdName)
                       (tdName ++ "_temp") tdName,
                     tx ++ [DDL.copyRows tdName (tdName ++ "_temp"),
                            DDL.dropTable tdName,
                            DDL.renameTable (tdName ++ "_temp") tdName]))
                  = (.ok u, dbr, tr) := h
              cases hcp : copyRowsPositional
                  (columnNamesOf (addTable db (tdName ++ "_temp")
                    { columns := ("id", idColumnSpec) :: cols, fks := fks,
                      indexes := [], rows := [] }) tdName)
                  (columnNamesOf (addTable db (tdName ++ "_temp")
                    { columns := ("id", idColumnSpec) :: cols, fks := fks,
                      indexes := [], rows := [] }) (tdName ++ "_temp"))
                  (rowsOf (addTable db (tdName ++ "_temp")
                    { columns := ("id", idColumnSpec) :: cols, fks := fks,
                      indexes := [], rows := [] }) tdName) with
              | error e =>
                  rw [hcp] at h
                  simp [Prod.mk.injEq] at h
              | ok copied =>
                  rw [hcp] at h
                  simp only [Prod.mk.injEq] at h
                  obtain ⟨_, hdb, _⟩ := h
                  subst hdb
                  have hgt := getTable_after_rebuild db tdName
                    { columns := ("id", idColumnSpec) :: cols, fks := fks,
                      indexes := [], rows := [] }
                    (fun t => { t with rows := copied })
                    (hasTable_false_getTable hhtf)
                  unfold hasCol columnNamesOf
                  rw [colsOf_eq hgt]
                  simp only [List.map_cons]
                  exact List.elem_iff.mpr
                    (List.mem_cons_of_mem _
                      (buildTempCols_mem snap f allFields cols fks hmem hb))
            · rw [if_neg hnd] at hct2
              simp [Prod.mk.injEq] at hct2

/-! ## A successful reconcile pass settles every field -/

theorem processField_ok (db : SDB) (tdName : String)
    (snap : List (String × ColumnSpec)) (idxSnap : List String)
    (allFields : List FieldDef) (f : FieldDef) (kt : String) (t : STable)
    (hmem : f ∈ allFields)
    (hk : getKnexFieldType f = .ok kt) (hne : (kt == "") = false)
    (ht : getTable db tdName = some t)
    (hsnap : ∀ k v, List.lookup k snap = some v →
        List.lookup k (colsOf db tdName) = some v) :
    ∀ (u : Unit) (db2 : SDB) (tr : List DDL),
      processField db tdName snap idxSnap allFields f kt = (.ok u, db2, tr) →
      tablePreserved tdName db db2 ∧ fieldSettled db2 tdName f
        ∧ (getTable db2 tdName).isSome := by
  intro u db2 tr h
  cases hlk : List.lookup f.name snap with
  | none =>
      rw [processField_none db tdName snap idxSnap allFields f kt hlk] at h
      exact addColumnAndIndex_ok db tdName idxSnap f kt t hk hne ht u db2 tr h
  | some spec =>
      rw [processField_some db tdName snap idxSnap allFields f kt spec hlk] at h
      by_cases hcond : (columnMatches spec f kt
          && !(isFKField f && !hasFKFor db tdName f)) = true
      · rw [if_pos hcond] at h
        simp only [Prod.mk.injEq] at h
        obtain ⟨_, hdb, _⟩ := h
        subst hdb
        have h1 := (Bool.and_eq_true _ _).mp hcond
        refine ⟨tablePreserved_refl tdName db, ?_, by rw [ht]; rfl⟩
        refine ⟨kt, hk, fun _ => ⟨spec, hsnap _ _ hlk, h1.1, fun hisfk => ?_⟩⟩
        by_cases hfk : hasFKFor db tdName f = true
        · exact hfk
        · have hfkf : hasFKFor db tdName f = false := by
            cases hc : hasFKFor db tdName f with
            | false => rfl
            | true => exact absurd hc hfk
          have h2 := h1.2
          rw [hisfk, hfkf] at h2
          simp at h2
      · rw [if_neg hcond] at h
        rcases hrb : rebuildTable db tdName snap allFields f with ⟨r1, dbx, tx⟩
        rw [hrb] at h
        cases r1 with
        | error e => simp [Prod.mk.injEq] at h
        | ok a =>
            have hcol1 := rebuild_makes_col db tdName snap allFields f hmem
              a dbx tx hrb
            replace h : (match addColumnAndIndex dbx tdName idxSnap f with
              | (r, db2x, t2x) => (r, db2x, tx ++ t2x)) = (.ok u, db2, tr) := h
            rcases hadd : addColumnAndIndex dbx tdName idxSnap f
              with ⟨r2, dby, ty⟩
            rw [hadd] at h
            replace h : (r2, dby, tx ++ ty) = (.ok u, db2, tr) := h
            simp only [Prod.mk.injEq] at h
            obtain ⟨hr2, _, _⟩ := h
            have : addColumnAndIndex dbx tdName idxSnap f
                = (.error ("duplicate column name: " ++ f.name), dbx, []) := by
              unfold addColumnAndIndex
              rw [if_pos hcol1]
            rw [this] at hadd
            simp only [Prod.mk.injEq] at hadd
            rw [← hadd.1] at hr2
            cases hr2

theorem reconcile_ok_settles (tdName : String)
    (snap : List (String × ColumnSpec)) (idxSnap : List String)
    (allFields : List FieldDef) :
    ∀ (fields : List FieldDef) (db : SDB) (u : Unit) (db2 : SDB)
      (tr : List DDL),
      (∀ g, g ∈ fields → g ∈ allFields) →
      (∀ k v, List.lookup k snap = some v →
          List.lookup k (colsOf db tdName) = some v) →
      (getTable db tdName).isSome →
      reconcileFields tdName snap idxSnap allFields db fields
        = (.ok u, db2, tr) →
      tablePreserved tdName db db2 ∧ (getTable db2 tdName).isSome
        ∧ ∀ f, f ∈ fields → fieldSettled db2 tdName f := by
  intro fields
  induction fields with
  | nil =>
      intro db u db2 tr _ _ hex h
      replace h : ((.ok () : Except String Unit), db, ([] : List DDL))
          = (.ok u, db2, tr) := h
      simp only [Prod.mk.injEq] at h
      obtain ⟨_, hdb, _⟩ := h
      subst hdb
      exact ⟨tablePreserved_refl tdName db, hex, fun f hf => by simp at hf⟩
  | cons f rest ih =>
      intro db u db2 tr hsub hsnap hex h
      cases hk : getKnexFieldType f with
      | error e =>
          rw [reconcileFields] at h
          rw [hk] at h
          replace h : ((.error e : Except String Unit), db, ([] : List DDL))
              = (.ok u, db2, tr) := h
          simp [Prod.mk.injEq] at h
      | ok kt =>
          rw [reconcileFields_cons_ok tdName snap idxSnap allFields db f rest
            kt hk] at h
          by_cases hkt : (kt == "") = true
          · rw [if_pos hkt] at h
            obtain ⟨hpres, hex2, hset⟩ := ih db u db2 tr
              (fun g hg => hsub g (List.mem_cons_of_mem f hg)) hsnap hex h
            refine ⟨hpres, hex2, fun g hg => ?_⟩
            rcases List.mem_cons.mp hg with he | hg2
            · subst he
              exact ⟨kt, hk, fun hne => absurd hkt (by rw [hne]; simp)⟩
            · exact hset g hg2
          · have hne : (kt == "") = false := by
              cases hc : (kt == "") with
              | false => rfl
              | true => exact absurd hc hkt
            rw [if_neg hkt] at h
            rcases hpf : processField db tdName snap idxSnap allFields f kt
              with ⟨r1, db1, t1⟩
            rw [hpf] at h
            cases r1 with
            | error e =>
                replace h : ((.error e : Except String Unit), db1, t1)
                    = (.ok u, db2, tr) := h
                simp [Prod.mk.injEq] at h
            | ok a =>
                replace h : (match reconcileFields tdName snap idxSnap
                    allFields db1 rest with
                  | (r, db2x, t2x) => (r, db2x, t1 ++ t2x))
                    = (.ok u, db2, tr) := h
                rcases hrec : reconcileFields tdName snap idxSnap allFields
                  db1 rest with ⟨r2, db3, t2⟩
                rw [hrec] at h
                replace h : (r2, db3, t1 ++ t2) = (.ok u, db2, tr) := h
                simp only [Prod.mk.injEq] at h
                obtain ⟨hr2, hdb3, _⟩ := h
                subst hdb3
                obtain ⟨t0, ht0⟩ := Option.isSome_iff_exists.mp hex
                obtain ⟨hpres1, hset1, hex1⟩ := processField_ok db tdName snap
                  idxSnap allFields f kt t0 (hsub f (List.mem_cons_self f rest))
                  hk hne ht0 hsnap a db1 t1 hpf
                have hsnap1 : ∀ k v, List.lookup k snap = some v →
                    List.lookup k (colsOf db1 tdName) = some v :=
                  fun k v hv => hpres1.1 k v (hsnap k v hv)
                subst hr2
                obtain ⟨hpres2, hex2, hset2⟩ := ih db1 u db3 t2
                  (fun g hg => hsub g (List.mem_cons_of_mem f hg))
                  hsnap1 hex1 hrec
                refine ⟨tablePreserved_trans hpres1 hpres2, hex2,
                  fun g hg => ?_⟩
                rcases List.mem_cons.mp hg with he | hg2
                · subst he
                  exact fieldSettled_mono hpres2 hset1
                · exact hset2 g hg2

/-! ## A successful create settles every field -/

theorem buildCreateCols_mem (tableName : String) :
    ∀ (fields : List FieldDef) (cols : List (String × ColumnSpec))
      (fks : List FKSpec) (idxs : List String),
      buildCreateCols tableName fields = .ok (cols, fks, idxs) →
      ∀ f, f ∈ fields → ∃ kt, getKnexFieldType f = .ok kt ∧
        ((kt == "") = false → (f.name, mkColSpec f kt) ∈ cols ∧
          (∀ fk, fieldFK f = some fk → fk ∈ fks)) := by
  intro fields
  induction fields with
  | nil => intro cols fks idxs _ f hf; simp at hf
  | cons g rest ih =>
      intro cols fks idxs hb f hf
      unfold buildCreateCols at hb
      cases hkg : getKnexFieldType g with
      | error e =>
          rw [hkg] at hb
          exact Except.noConfusion hb
      | ok ktg =>
          rw [hkg] at hb
          simp only [except_bind_ok] at hb
          by_cases hktg : (ktg == "") = true
          · rw [if_pos hktg] at hb
            rcases List.mem_cons.mp hf with he | hf2
            · subst he
              exact ⟨ktg, hkg, fun hne => absurd hktg (by rw [hne]; simp)⟩
            · exact ih cols fks idxs hb f hf2
          · have hneg : (ktg == "") = false := by
              cases hc : (ktg == "") with
              | false => rfl
              | true => exact absurd hc hktg
            rw [if_neg hktg] at hb
            rw [colSpecFor_ok g ktg hkg hneg] at hb
            cases hrec : buildCreateCols tableName rest with
            | error e =>
                rw [hrec] at hb
                exact Except.noConfusion hb
            | ok pr =>
                obtain ⟨c2, f2, i2⟩ := pr
                rw [hrec] at hb
                have heq : ((g.name, mkColSpec g ktg) :: c2,
                    (match fieldFK g with
                     | some fk => fk :: f2
                     | none => f2),
                    (if truthyStr g.indexed = true then
                       idxNameFor tableName g :: i2
                     else i2)) = (cols, fks, idxs) := Except.ok.inj hb
                have hcols : (g.name, mkColSpec g ktg) :: c2 = cols :=
                  congrArg Prod.fst heq
                have hfks : (match fieldFK g with
                    | some fk => fk :: f2
                    | none => f2) = fks :=
                  congrArg (fun x => x.2.1) heq
                rcases List.mem_cons.mp hf with he | hf2
                · subst he
                  refine ⟨ktg, hkg, fun _ => ⟨?_, ?_⟩⟩
                  · rw [← hcols]
                    exact List.mem_cons_self _ _
                  · intro fk hfk
                    rw [← hfks, hfk]
                    exact List.mem_cons_self _ _
                · obtain ⟨ktf, hkf, himp⟩ := ih c2 f2 i2 hrec f hf2
                  refine ⟨ktf, hkf, fun hne => ?_⟩
                  obtain ⟨hmem2, hfk2⟩ := himp hne
                  refine ⟨by rw [← hcols]; exact List.mem_cons_of_mem _ hmem2,
                    fun fk hfk => ?_⟩
                  have := hfk2 fk hfk
                  rw [← hfks]
                  cases hffk : fieldFK g with
                  | some fk2 => exact List.mem_cons_of_mem _ this
                  | none => exact this

theorem createPath_ok_settles (db : SDB) (td : TableDefinition) :
    ∀ (u : Unit) (db1 : SDB) (tr : List DDL),
      createPath db td = (.ok u, db1, tr) →
      (getTable db1 td.name).isSome
        ∧ ∀ f, f ∈ td.fields → fieldSettled db1 td.name f := by
  intro u db1 tr h
  unfold createPath at h
  cases hb : buildCreateCols td.name td.fields with
  | error e =>
      rw [hb] at h
      simp [Prod.mk.injEq] at h
  | ok pr =>
      obtain ⟨cols, fks, idxs⟩ := pr
      rw [hb] at h
      replace h : createTableRaw db td.name (("id", idColumnSpec) :: cols)
          fks idxs = (.ok u, db1, tr) := h
      unfold createTableRaw at h
      by_cases hht : hasTable db td.name = true
      · rw [if_pos hht] at h
        simp [Prod.mk.injEq] at h
      · have hhtf : hasTable db td.name = false := by
          cases hc : hasTable db td.name with
          | false => rfl
          | true => exact absurd hc hht
        rw [if_neg hht] at h
        by_cases hnd :
            ((List.map (fun p => p.1) (("id", idColumnSpec) :: cols)).Nodup)
        · rw [if_pos hnd] at h
          simp only [Prod.mk.injEq] at h
          obtain ⟨_, hdb, _⟩ := h
          subst hdb
          have ht1 : getTable (addTable db td.name
              { columns := ("id", idColumnSpec) :: cols, fks := fks,
                indexes := idxs, rows := [] }) td.name
              = some { columns := ("id", idColumnSpec) :: cols, fks := fks,
                       indexes := idxs, rows := [] } :=
            getTable_addTable db td.name _ (hasTable_false_getTable hhtf)
          refine ⟨by rw [ht1]; rfl, fun f hf => ?_⟩
          obtain ⟨kt, hk, himp⟩ := buildCreateCols_mem td.name td.fields
            cols fks idxs hb f hf
          refine ⟨kt, hk, fun hne => ?_⟩
          obtain ⟨hmem2, hfk2⟩ := himp hne
          have hndP : ((("id", idColumnSpec) :: cols).map Prod.fst).Nodup := hnd
          refine ⟨mkColSpec f kt, ?_, columnMatches_mk f kt, fun hisfk => ?_⟩
          · rw [colsOf_eq ht1]
            exact lookup_of_mem_nodup (List.mem_cons_of_mem _ hmem2) hndP
          · obtain ⟨ft, hft⟩ := isFKField_ft f hisfk
            apply hasFKFor_of_mem _ _ _ ft hft
            rw [fksOf_eq ht1]
            have := hfk2 _ (fieldFK_of_isFK f hisfk)
            rw [hft] at this
            exact this
        · rw [if_neg hnd] at h
          simp [Prod.mk.injEq] at h

/-- C3: `schemaCreateOrUpdate` is idempotent — after one successful
call, a second call with the same definition finds every field's stored
type, nullability, default and foreign key matching, skips them all,
issues no DDL and leaves the database state (rows included) unchanged. -/
theorem schemaCreateOrUpdate_idempotent :
    ∀ (db : SDB) (td : TableDefinition),
      (schemaCreateOrUpdate db td).1 = .ok () →
      schemaCreateOrUpdate (schemaCreateOrUpdate db td).2.1 td
        = (.ok (), (schemaCreateOrUpdate db td).2.1, []) := by
  intro db td h
  rcases hrun : schemaCreateOrUpdate db td with ⟨res, db1, tr1⟩
  rw [hrun] at h
  replace h : res = .ok () := h
  subst h
  have key : (getTable db1 td.name).isSome
      ∧ ∀ f, f ∈ td.fields → fieldSettled db1 td.name f := by
    cases hget : getTable db td.name with
    | none =>
        have hcp : createPath db td = (.ok (), db1, tr1) := by
          rw [← hrun]
          unfold schemaCreateOrUpdate
          rw [hget]
        exact createPath_ok_settles db td () db1 tr1 hcp
    | some t =>
        have hrc : reconcileFields td.name t.columns t.indexes td.fields db
            td.fields = (.ok (), db1, tr1) := by
          rw [← hrun]
          unfold schemaCreateOrUpdate
          rw [hget]
        have hsnap : ∀ k v, List.lookup k t.columns = some v →
            List.lookup k (colsOf db td.name) = some v := by
          intro k v hv
          rw [colsOf_eq hget]
          exact hv
        obtain ⟨_, hex2, hset2⟩ := reconcile_ok_settles td.name t.columns
          t.indexes td.fields td.fields db () db1 tr1
          (fun g hg => hg) hsnap (by rw [hget]; rfl) hrc
        exact ⟨hex2, hset2⟩
  obtain ⟨t1, ht1⟩ := Option.isSome_iff_exists.mp key.1
  show schemaCreateOrUpdate db1 td = (.ok (), db1, [])
  unfold schemaCreateOrUpdate
  rw [ht1]
  exact reconcile_all_settled td.name t1.indexes td.fields td.fields db1
    t1.columns (colsOf_eq ht1).symm key.2

/-- Witness for `schemaCreateOrUpdate_idempotent`: creating a fresh
`users` table and re-running the same definition issues no DDL and
leaves the state unchanged. -/
theorem schemaCreateOrUpdate_idempotent_witness :
    schemaCreateOrUpdate
        (schemaCreateOrUpdate ⟨[]⟩
          { name := "users",
            fields := [{ name := "name", type := .Text, required := true },
                       { name := "email", type := .Text,
                         indexed := some "Unique" },
                       { name := "age", type := .Integer }] }).2.1
        { name := "users",
          fields := [{ name := "name", type := .Text, required := true },
                     { name := "email", type := .Text,
                       indexed := some "Unique" },
                     { name := "age", type := .Integer }] }
      = (.ok (),
         (schemaCreateOrUpdate ⟨[]⟩
          { name := "users",
            fields := [{ name := "name", type := .Text, required := true },
                       { name := "email", type := .Text,
                         indexed := some "Unique" },
                       { name := "age", type := .Integer }] }).2.1, []) :=
  schemaCreateOrUpdate_idempotent ⟨[]⟩
    { name := "users",
      fields := [{ name := "name", type := .Text, required := true },
                 { name := "email", type := .Text, indexed := some "Unique" },
                 { name := "age", type := .Integer }] } rfl

end TypePersist
